import Mathlib

/-!
Verification of the libbayer demosaicing library.

This file gives a shallow embedding, in Lean 4, of the core of the
libbayer crate: the CFA phase algebra (`src/bayer.rs`), the border
readers (`src/border_replicate.rs`, `src/border_mirror.rs`,
`src/border_none.rs`), the four demosaicing algorithms
(`src/demosaic/{none,nearestneighbour,linear,cubic}.rs`) in both their
sequential sliding-window form and their whole-frame (rayon) form, the
precondition checks (`src/demosaic/mod.rs`), and the C FFI status
mapping (`src/ffi.rs`).

Modelling conventions:
* Machine integers (`u8`, `u16`, `u32`) are modelled as `Nat`.  All kernel
  accumulations in the source are performed in `u32`; the largest value
  ever accumulated is `328 * 65535 < 2^32` (proved below), so plain `Nat`
  arithmetic is exact for them.  `u32::saturating_sub` is `Nat`
  subtraction, which is truncated (saturating) by definition.  The
  narrowing casts `as u8` / `as u16` are modelled as `% (maxval+1)`
  where `maxval` is the channel type's maximum value (255 or 65535).
* A raw frame is a `List (List Nat)`: the sample stream already split
  into its `h` rows of `w` samples.  A decoded raster is a
  `List (List (List Nat))`: `h` rows of `w` pixels of 3 channel values,
  channel order R, G, B as in the byte buffer.
* Reading a line from the stream is total on sufficiently long input
  and fails (like `read_exact`) otherwise.
-/

namespace LibBayer

/-- The 2×2 colour filter array (CFA) pattern, from `src/bayer.rs`. -/
inductive CFA where
  | BGGR
  | GBRG
  | GRBG
  | RGGB
deriving DecidableEq, Repr

/-- `CFA::next_x`: the 2×2 pixel block obtained when moving right one column. -/
def CFA.next_x : CFA → CFA
  | .BGGR => .GBRG
  | .GBRG => .BGGR
  | .GRBG => .RGGB
  | .RGGB => .GRBG

/-- `CFA::next_y`: the 2×2 pixel block obtained when moving down one row. -/
def CFA.next_y : CFA → CFA
  | .BGGR => .GRBG
  | .GBRG => .RGGB
  | .GRBG => .BGGR
  | .RGGB => .GBRG

/-- The depth and endianness of the raw image, from `src/bayer.rs`. -/
inductive BayerDepth where
  | Depth8
  | Depth16BE
  | Depth16LE
deriving DecidableEq, Repr

/-- Depth of a raster, from `src/raster.rs`. -/
inductive RasterDepth where
  | Depth8
  | Depth16
deriving DecidableEq, Repr

/-- Bayer error codes, from `src/errcode.rs` (the `Io` payload is dropped). -/
inductive BayerError where
  | NoGood
  | WrongResolution
  | WrongDepth
  | Io
deriving DecidableEq, Repr

/-- The demosaicing algorithm selector, from `src/demosaic/mod.rs`. -/
inductive Demosaic where
  | None
  | NearestNeighbour
  | Linear
  | Cubic
deriving DecidableEq, Repr

/-- `check_depth` from `src/demosaic/mod.rs`: image depth and raster depth
are compatible. -/
def check_depth (bayer : BayerDepth) (raster : RasterDepth) : Bool :=
  match raster with
  | .Depth8 => bayer = BayerDepth.Depth8
  | .Depth16 => bayer = BayerDepth.Depth16BE ∨ bayer = BayerDepth.Depth16LE

/-! ### Border readers -/

/-- A run of `n` copies of the sample pair `(a, b)`; one loop iteration of
`fill_row!` in `src/border_replicate.rs` writes one such pair. -/
def pairRun : Nat → Nat → Nat → List Nat
  | 0, _, _ => []
  | n + 1, a, b => a :: b :: pairRun n a b

/-- Left border of the replicate `fill_row!` (`src/border_replicate.rs`):
an optional leading `g0` (written at `dst[0]` when the padding `p` is odd)
followed by `p / 2` copies of the first interior pair `(r0, g0)`. -/
def replicateLeft (p : Nat) (row : List Nat) : List Nat :=
  (if p % 2 = 1 then [row.getD 1 0] else []) ++ pairRun (p / 2) (row.getD 0 0) (row.getD 1 0)

/-- Right border of the replicate fill: `p / 2` copies of the last interior
pair `(rn, gn)` and, when `p` is odd, a final leftover `rn`. -/
def replicateRight (p : Nat) (row : List Nat) : List Nat :=
  pairRun (p / 2) (row.getD (row.length - 2) 0) (row.getD (row.length - 1) 0)
    ++ (if p % 2 = 1 then [row.getD (row.length - 2) 0] else [])

/-- The row produced by `BorderReplicate*::read_line` (`fill_row!` in
`src/border_replicate.rs`) once the interior `row` (of width
`w = row.length`) has been read into `[p, p+w)`. -/
def replicateLine (p : Nat) (row : List Nat) : List Nat :=
  replicateLeft p row ++ row ++ replicateRight p row

/-- The row produced by `BorderMirror*::read_line` (`fill_row!` in
`src/border_mirror.rs`): left border cell `k` (for `k < p`) mirrors interior
sample `p - k` (the loop writes `dst[i-1] = dst[j]` walking `i` down from `p`
and `j` up from `p+1`), right border cell `t` mirrors interior sample
`w - 2 - t`. -/
def mirrorLine (p : Nat) (row : List Nat) : List Nat :=
  ((List.range p).map fun k => row.getD (p - k) 0)
    ++ row
    ++ ((List.range p).map fun t => row.getD (row.length - 2 - t) 0)

/-- `BorderReplicate8::read_line` / 16-bit variants: read exactly `w` samples
from the stream (failing like `read_exact` if fewer are available), then fill
the borders.  Returns the padded row and the remaining stream. -/
def replicateReadLine (p w : Nat) (s : List Nat) : Option (List Nat × List Nat) :=
  if w ≤ s.length then some (replicateLine p (s.take w), s.drop w) else none

/-- `BorderMirror8::read_line` / 16-bit variants, analogously. -/
def mirrorReadLine (p w : Nat) (s : List Nat) : Option (List Nat × List Nat) :=
  if w ≤ s.length then some (mirrorLine p (s.take w), s.drop w) else none

/-! ### Linear kernels (`src/demosaic/linear.rs`, PADDING = 1) -/

/-- `apply_kernel_c!` of `linear.rs` at a colour (R/B) pixel `i`: channel
indices `(c, d) = if BGGR then (2,0) else (0,2)`; the own channel is the raw
sample, green is the 4-cross average `/ 4`, the diagonal channel the
4-diagonal average `/ 4`, each narrowed by the `as $T` cast. -/
def linearKernelC (maxval : Nat) (cfa : CFA) (prev curr next : List Nat) (i : Nat) :
    List Nat :=
  let j := i + 1
  let own := curr.getD j 0
  let g := ((prev.getD j 0 + curr.getD (j - 1) 0 + curr.getD (j + 1) 0
      + next.getD j 0) / 4) % (maxval + 1)
  let d := ((prev.getD (j - 1) 0 + prev.getD (j + 1) 0 + next.getD (j - 1) 0
      + next.getD (j + 1) 0) / 4) % (maxval + 1)
  if cfa = CFA.BGGR then [d, g, own] else [own, g, d]

/-- `apply_kernel_g!` of `linear.rs` at a green pixel `i`: channel indices
`(h, v) = if GBRG then (2,0) else (0,2)`; horizontal and vertical 2-averages
`/ 2`, own green channel is the raw sample. -/
def linearKernelG (maxval : Nat) (cfa : CFA) (prev curr next : List Nat) (i : Nat) :
    List Nat :=
  let j := i + 1
  let hv := ((curr.getD (j - 1) 0 + curr.getD (j + 1) 0) / 2) % (maxval + 1)
  let vv := ((prev.getD j 0 + next.getD j 0) / 2) % (maxval + 1)
  if cfa = CFA.GBRG then [vv, curr.getD j 0, hv] else [hv, curr.getD j 0, vv]

/-- `apply_kernel_row!` of `linear.rs`: colour kernels at pixels of parity
`off` (0 when the row phase starts on a colour site, 1 otherwise), green
kernels at the other parity, with the two phases `cfa_c`/`cfa_g` fixed for
the whole row. -/
def linearKernelRow (maxval : Nat) (cfa : CFA) (prev curr next : List Nat) (w : Nat) :
    List (List Nat) :=
  let off := if cfa = CFA.BGGR ∨ cfa = CFA.RGGB then 0 else 1
  let cfaC := if off = 0 then cfa else cfa.next_x
  let cfaG := if off = 0 then cfa.next_x else cfa
  (List.range w).map fun i =>
    if i % 2 = off then linearKernelC maxval cfaC prev curr next i
    else linearKernelG maxval cfaG prev curr next i

/-! ### Cubic kernels (`src/demosaic/cubic.rs`, PADDING = 3)

All four accumulators are `u32` sums in the source; with 16-bit samples the
largest, `cubicGPos`, is at most `328 * 65535 < 2^32`, so `Nat` models them
exactly (proved in `cubic_accum_lt`). -/

/-- Positive green taps of `apply_kernel_c!`: `(near cross) * 81 + far cross`. -/
def cubicGPos (prv3 prv1 curr nxt1 nxt3 : List Nat) (j : Nat) : Nat :=
  (prv1.getD j 0 + curr.getD (j - 1) 0 + curr.getD (j + 1) 0 + nxt1.getD j 0) * 81
    + (prv3.getD j 0 + curr.getD (j - 3) 0 + curr.getD (j + 3) 0 + nxt3.getD j 0)

/-- Negative green taps of `apply_kernel_c!`: eight ring samples `* 9`. -/
def cubicGNeg (prv2 prv1 nxt1 nxt2 : List Nat) (j : Nat) : Nat :=
  (prv2.getD (j - 1) 0 + prv2.getD (j + 1) 0 + prv1.getD (j - 2) 0
      + prv1.getD (j + 2) 0 + nxt1.getD (j - 2) 0 + nxt1.getD (j + 2) 0
      + nxt2.getD (j - 1) 0 + nxt2.getD (j + 1) 0) * 9

/-- Positive diagonal taps of `apply_kernel_c!`. -/
def cubicDPos (prv3 prv1 nxt1 nxt3 : List Nat) (j : Nat) : Nat :=
  (prv1.getD (j - 1) 0 + prv1.getD (j + 1) 0 + nxt1.getD (j - 1) 0
      + nxt1.getD (j + 1) 0) * 81
    + (prv3.getD (j - 3) 0 + prv3.getD (j + 3) 0 + nxt3.getD (j - 3) 0
      + nxt3.getD (j + 3) 0)

/-- Negative diagonal taps of `apply_kernel_c!`. -/
def cubicDNeg (prv3 prv1 nxt1 nxt3 : List Nat) (j : Nat) : Nat :=
  (prv3.getD (j - 1) 0 + prv3.getD (j + 1) 0 + prv1.getD (j - 3) 0
      + prv1.getD (j + 3) 0 + nxt1.getD (j - 3) 0 + nxt1.getD (j + 3) 0
      + nxt3.getD (j - 1) 0 + nxt3.getD (j + 1) 0) * 9

/-- `apply_kernel_c!` of `cubic.rs` at a colour (R/B) pixel `i`:
`saturating_sub`, division by 256, and `min (.) (T::max_value())` before the
narrowing cast. -/
def cubicKernelC (maxval : Nat) (cfa : CFA)
    (prv3 prv2 prv1 curr nxt1 nxt2 nxt3 : List Nat) (i : Nat) : List Nat :=
  let j := i + 3
  let own := curr.getD j 0
  let g := (min ((cubicGPos prv3 prv1 curr nxt1 nxt3 j
      - cubicGNeg prv2 prv1 nxt1 nxt2 j) / 256) maxval) % (maxval + 1)
  let d := (min ((cubicDPos prv3 prv1 nxt1 nxt3 j
      - cubicDNeg prv3 prv1 nxt1 nxt3 j) / 256) maxval) % (maxval + 1)
  if cfa = CFA.BGGR then [d, g, own] else [own, g, d]

/-- `apply_kernel_g!` of `cubic.rs` at a green pixel `i`: horizontal and
vertical 1-D kernels, `saturating_sub`, division by 16, clamped to the
channel maximum. -/
def cubicKernelG (maxval : Nat) (cfa : CFA)
    (prv3 prv1 curr nxt1 nxt3 : List Nat) (i : Nat) : List Nat :=
  let j := i + 3
  let hpos := (curr.getD (j - 1) 0 + curr.getD (j + 1) 0) * 9
  let hneg := curr.getD (j - 3) 0 + curr.getD (j + 3) 0
  let vpos := (prv1.getD j 0 + nxt1.getD j 0) * 9
  let vneg := prv3.getD j 0 + nxt3.getD j 0
  let hv := (min ((hpos - hneg) / 16) maxval) % (maxval + 1)
  let vv := (min ((vpos - vneg) / 16) maxval) % (maxval + 1)
  if cfa = CFA.GBRG then [vv, curr.getD j 0, hv] else [hv, curr.getD j 0, vv]

/-- `apply_kernel_row!` of `cubic.rs`, same parity scheme as the linear row. -/
def cubicKernelRow (maxval : Nat) (cfa : CFA)
    (prv3 prv2 prv1 curr nxt1 nxt2 nxt3 : List Nat) (w : Nat) : List (List Nat) :=
  let off := if cfa = CFA.BGGR ∨ cfa = CFA.RGGB then 0 else 1
  let cfaC := if off = 0 then cfa else cfa.next_x
  let cfaG := if off = 0 then cfa.next_x else cfa
  (List.range w).map fun i =>
    if i % 2 = off then cubicKernelC maxval cfaC prv3 prv2 prv1 curr nxt1 nxt2 nxt3 i
    else cubicKernelG maxval cfaG prv3 prv1 curr nxt1 nxt3 i

/-! ### Nearest-neighbour kernels (`src/demosaic/nearestneighbour.rs`, PADDING = 1) -/

/-- `apply_kernel_c!` of `nearestneighbour.rs`: pure copies, no averaging. -/
def nnKernelC (cfa : CFA) (prev curr : List Nat) (i : Nat) : List Nat :=
  let j := i + 1
  let own := curr.getD j 0
  let g := curr.getD (j - 1) 0
  let d := prev.getD (j - 1) 0
  if cfa = CFA.BGGR then [d, g, own] else [own, g, d]

/-- `apply_kernel_g!` of `nearestneighbour.rs`. -/
def nnKernelG (cfa : CFA) (prev curr : List Nat) (i : Nat) : List Nat :=
  let j := i + 1
  let hv := curr.getD (j - 1) 0
  let vv := prev.getD j 0
  if cfa = CFA.GBRG then [vv, curr.getD j 0, hv] else [hv, curr.getD j 0, vv]

/-- `apply_kernel_row!` of `nearestneighbour.rs`: unlike the other
algorithms, it re-steps `cfa_x` by `next_x` at every pixel and matches on it. -/
def nnKernelRow (cfa : CFA) (prev curr : List Nat) (w : Nat) : List (List Nat) :=
  (List.range w).map fun i =>
    match CFA.next_x^[i] cfa with
    | .BGGR | .RGGB => nnKernelC (CFA.next_x^[i] cfa) prev curr i
    | _ => nnKernelG (CFA.next_x^[i] cfa) prev curr i

/-! ### None kernels (`src/demosaic/none.rs`, no padding) -/

/-- `apply_kernel_c!` of `none.rs`: the raw sample lands in channel 2 for
BGGR, channel 0 otherwise; the other channels stay at the zero fill. -/
def noneKernelC (cfa : CFA) (s : Nat) : List Nat :=
  if cfa = CFA.BGGR then [0, 0, s] else [s, 0, 0]

/-- `apply_kernel_g!` of `none.rs`: the raw sample lands in channel 1. -/
def noneKernelG (s : Nat) : List Nat :=
  [0, s, 0]

/-- `apply_kernel_row!` of `none.rs`: zero fill then one write per pixel. -/
def noneKernelRow (cfa : CFA) (curr : List Nat) (w : Nat) : List (List Nat) :=
  let off := if cfa = CFA.BGGR ∨ cfa = CFA.RGGB then 0 else 1
  let cfaC := if off = 0 then cfa else cfa.next_x
  (List.range w).map fun i =>
    if i % 2 = off then noneKernelC cfaC (curr.getD i 0) else noneKernelG (curr.getD i 0)

/-! ### Pipelines

The sequential (`#[cfg(not(feature = "rayon"))]`) `debayer_u8`/`debayer_u16`
functions keep a sliding window of padded row buffers, rotated by `rotate!`
with one new row read per step; the first and last output rows substitute
already-read interior rows for the missing neighbours.  `u8` and `u16`
differ only in the channel maximum `maxval` and the wire decoding, so a
single `Nat`-valued pipeline models both. -/

/-- Tail of the sequential `none.rs` loop: one row per read, stepping the
phase by `next_y`. -/
def noneGo (w : Nat) (cfa : CFA) : List (List Nat) → List (List (List Nat))
  | [] => []
  | u :: rest => noneKernelRow cfa u w :: noneGo w cfa.next_y rest

/-- `none::debayer_u8`/`u16` on the frame's rows. -/
def noneDebayer (w : Nat) (cfa : CFA) (rows : List (List Nat)) : List (List (List Nat)) :=
  noneGo w cfa rows

/-- Tail of the `nearestneighbour.rs` loop (`y >= 2`): after `rotate!`,
`prev` is the previous frame row and `curr` the newly read one. -/
def nnGo (w : Nat) (cfa : CFA) (prevRow : List Nat) :
    List (List Nat) → List (List (List Nat))
  | [] => []
  | u :: rest => nnKernelRow cfa prevRow u w :: nnGo w cfa.next_y u rest

/-- `nearestneighbour::debayer_u8`/`u16`: rows are replicate-padded with
`PADDING = 1`; row 0 is computed with the second row substituted as `prev`
(the source calls `apply_kernel_row!(row, curr, prev, ..)` with the buffers
swapped), row 1 from the first two rows, and the rest by the sliding loop. -/
def nnDebayer (w : Nat) (cfa : CFA) (rows : List (List Nat)) : List (List (List Nat)) :=
  match rows.map (replicateLine 1) with
  | r0 :: r1 :: rest =>
      nnKernelRow cfa r1 r0 w :: nnKernelRow cfa.next_y r0 r1 w
        :: nnGo w cfa.next_y.next_y r1 rest
  | _ => []

/-- Tail of the sequential `linear.rs` loop: on each middle step the window
after `rotate!` is `(curr, next, u)`; when the stream of upcoming rows is
exhausted the last output row reuses `curr` for the missing `next`. -/
def linearGo (maxval w : Nat) (cfa : CFA) (curr next : List Nat) :
    List (List Nat) → List (List (List Nat))
  | [] => [linearKernelRow maxval cfa curr next curr w]
  | u :: rest =>
      linearKernelRow maxval cfa curr next u w :: linearGo maxval w cfa.next_y next u rest

/-- Sequential `linear::debayer_u8`/`u16`: rows are replicate-padded with
`PADDING = 1`; row 0 substitutes row 1 for the missing `prev`. -/
def linearDebayerSeq (maxval w : Nat) (cfa : CFA) (rows : List (List Nat)) :
    List (List (List Nat)) :=
  match rows.map (replicateLine 1) with
  | r0 :: r1 :: rest =>
      linearKernelRow maxval cfa r1 r0 r1 w :: linearGo maxval w cfa.next_y r0 r1 rest
  | _ => []

/-- The materialized bordered frame of the rayon `linear.rs` mode: all `h`
interior rows padded, a top padding row copied from (padded) row 1 and a
bottom padding row copied from row `h - 2`. -/
def linearData (h : Nat) (rows : List (List Nat)) : List (List Nat) :=
  let padded := rows.map (replicateLine 1)
  padded.getD 1 [] :: padded ++ [padded.getD (h - 2) []]

/-- Rayon `linear::debayer_u8`/`u16`: every output row `y` is evaluated
independently from rows `y`, `y+1`, `y+2` of the materialized frame, with
the phase chosen by the parity of `y`. -/
def linearDebayerPar (maxval w h : Nat) (cfa : CFA) (rows : List (List Nat)) :
    List (List (List Nat)) :=
  let data := linearData h rows
  (List.range h).map fun y =>
    linearKernelRow maxval (if y % 2 = 0 then cfa else cfa.next_y)
      (data.getD y []) (data.getD (y + 1) []) (data.getD (y + 2) []) w

/-- Tail of the sequential `cubic.rs` loop.  The state is the seven row
buffers `(prv3, prv2, prv1, curr, nxt1, nxt2, nxt3)`; a middle step emits
the window after `rotate!` plus one newly read row, and once the upcoming
rows run out the last three output rows (`y = h-3, h-2, h-1`) reuse the
buffers in the mirrored order of the source. -/
def cubicGo (maxval w : Nat) (cfa : CFA) (_p3 p2 p1 c n1 n2 n3 : List Nat) :
    List (List Nat) → List (List (List Nat))
  | u :: rest =>
      cubicKernelRow maxval cfa p2 p1 c n1 n2 n3 u w
        :: cubicGo maxval w cfa.next_y p2 p1 c n1 n2 n3 u rest
  | [] =>
      [cubicKernelRow maxval cfa p2 p1 c n1 n2 n3 n2 w,
       cubicKernelRow maxval cfa.next_y p1 c n1 n2 n3 n2 n1 w,
       cubicKernelRow maxval cfa.next_y.next_y c n1 n2 n3 n2 n1 c w]

/-- Sequential `cubic::debayer_u8`/`u16`: rows are mirror-padded with
`PADDING = 3`; the first four rows are read up front, the `prv` buffers are
initialized as copies of `nxt1..nxt3`, and row 0 is emitted with the window
`(nxt3, nxt2, nxt1, curr, nxt1, nxt2, nxt3)`. -/
def cubicDebayerSeq (maxval w : Nat) (cfa : CFA) (rows : List (List Nat)) :
    List (List (List Nat)) :=
  match rows.map (mirrorLine 3) with
  | r0 :: r1 :: r2 :: r3 :: rest =>
      cubicKernelRow maxval cfa r3 r2 r1 r0 r1 r2 r3 w
        :: cubicGo maxval w cfa.next_y r3 r2 r1 r0 r1 r2 r3 rest
  | _ => []

/-- The materialized bordered frame of the rayon `cubic.rs` mode: `h`
mirror-padded interior rows, three top padding rows copied from rows 3, 2, 1
and three bottom padding rows copied from rows `h-2`, `h-3`, `h-4`. -/
def cubicData (h : Nat) (rows : List (List Nat)) : List (List Nat) :=
  let padded := rows.map (mirrorLine 3)
  padded.getD 3 [] :: padded.getD 2 [] :: padded.getD 1 [] :: padded
    ++ [padded.getD (h - 2) [], padded.getD (h - 3) [], padded.getD (h - 4) []]

/-- Rayon `cubic::debayer_u8`/`u16`: output row `y` uses rows `y .. y+6` of
the materialized frame. -/
def cubicDebayerPar (maxval w h : Nat) (cfa : CFA) (rows : List (List Nat)) :
    List (List (List Nat)) :=
  let data := cubicData h rows
  (List.range h).map fun y =>
    cubicKernelRow maxval (if y % 2 = 0 then cfa else cfa.next_y)
      (data.getD y []) (data.getD (y + 1) []) (data.getD (y + 2) [])
      (data.getD (y + 3) []) (data.getD (y + 4) []) (data.getD (y + 5) [])
      (data.getD (y + 6) []) w

/-! ### Validation, dispatch and FFI -/

/-- Minimum frame dimension checked by each algorithm's `run` function
(`dst.w < 2 || dst.h < 2` for None / NearestNeighbour / Linear,
`dst.w < 4 || dst.h < 4` for Cubic). -/
def minDimension : Demosaic → Nat
  | .Cubic => 4
  | _ => 2

/-- The channel maximum of the sample type selected by the Bayer depth. -/
def maxvalOf : BayerDepth → Nat
  | .Depth8 => 255
  | _ => 65535

/-- The frame's raw sample stream split into its `h` rows of `w` samples. -/
def chunkRows (w h : Nat) (stream : List Nat) : List (List Nat) :=
  (List.range h).map fun y => ((stream.drop (y * w)).take w)

/-- The sequential pipeline selected by `demosaic` in `src/lib.rs`. -/
def pipelineOf (alg : Demosaic) (maxval w : Nat) (cfa : CFA)
    (rows : List (List Nat)) : List (List (List Nat)) :=
  match alg with
  | .None => noneDebayer w cfa rows
  | .NearestNeighbour => nnDebayer w cfa rows
  | .Linear => linearDebayerSeq maxval w cfa rows
  | .Cubic => cubicDebayerSeq maxval w cfa rows

instance : DecidableEq (Except BayerError Unit) := fun a b =>
  match a, b with
  | .ok (), .ok () => isTrue rfl
  | .ok (), .error _ => isFalse fun h => Except.noConfusion h
  | .error _, .ok () => isFalse fun h => Except.noConfusion h
  | .error e, .error f =>
    match decEq e f with
    | isTrue h => isTrue (h ▸ rfl)
    | isFalse h => isFalse fun hh => h (by cases hh; rfl)

/-- Result of one decode call: the status, how many samples were consumed
from the stream, and the destination raster after the call. -/
structure RunOutcome where
  status : Except BayerError Unit
  consumed : Nat
  raster : List (List (List Nat))
deriving DecidableEq

/-- The `run` functions of the four algorithm modules followed by the
`demosaic` dispatch of `src/lib.rs`: resolution check, then `check_depth`,
then the decode.  On an I/O failure (stream shorter than `w*h`) the source
leaves partially written rows behind (undefined per the crate's contract);
the model keeps the caller's raster `dst0` there, and charges the whole
rows that were available as consumed. -/
def runDemosaic (alg : Demosaic) (w h : Nat) (depth : BayerDepth)
    (rdepth : RasterDepth) (cfa : CFA) (stream : List Nat)
    (dst0 : List (List (List Nat))) : RunOutcome :=
  if w < minDimension alg ∨ h < minDimension alg then
    ⟨.error .WrongResolution, 0, dst0⟩
  else if ¬ check_depth depth rdepth then
    ⟨.error .WrongDepth, 0, dst0⟩
  else if stream.length < w * h then
    ⟨.error .Io, w * (stream.length / w), dst0⟩
  else
    ⟨.ok (), w * h, pipelineOf alg (maxvalOf depth) w cfa (chunkRows w h stream)⟩

/-- Depth/endianness code parsing of `run_demosaic` in `src/ffi.rs`:
`(8, _) => Depth8`, `(16, 0) => Depth16LE`, `(16, _) => Depth16BE`. -/
def parseDepth (depth be : Nat) : Option BayerDepth :=
  if depth = 8 then some .Depth8
  else if depth = 16 then (if be = 0 then some .Depth16LE else some .Depth16BE)
  else none

/-- CFA code parsing of `run_demosaic` in `src/ffi.rs`. -/
def parseCfa : Nat → Option CFA
  | 0 => some .BGGR
  | 1 => some .GBRG
  | 2 => some .GRBG
  | 3 => some .RGGB
  | _ => none

/-- `run_demosaic` of `src/ffi.rs`, shared by the four exported
`bayerrs_demosaic_*` functions: null-pointer check, depth parse (note the
source returns 2 on an invalid depth code), CFA parse, then the status of
the wrapped decode `runFn`. -/
def ffiRunDemosaic (srcNull dstNull : Bool) (depth be cfa : Nat)
    (runFn : BayerDepth → CFA → Except BayerError Unit) : Nat :=
  if srcNull ∨ dstNull then 1
  else
    match parseDepth depth be with
    | none => 2
    | some d =>
      match parseCfa cfa with
      | none => 1
      | some c =>
        match runFn d c with
        | .ok _ => 0
        | .error .WrongResolution => 2
        | .error .WrongDepth => 3
        | .error _ => 1

/-! ### Claim-side derived notions -/

/-- The CFA phase governing pixel `(x, y)`: step down `y` rows and right `x`
columns from the frame's top-left phase. -/
def cfaAt (cfa : CFA) (x y : Nat) : CFA :=
  CFA.next_x^[x] (CFA.next_y^[y] cfa)

/-- The raster channel index (0 = R, 1 = G, 2 = B) holding a phase's own
top-left colour. -/
def siteChannel : CFA → Nat
  | .BGGR => 2
  | .RGGB => 0
  | _ => 1

/-- Per-site channel extraction: keeps, for each pixel, only the channel of
its own CFA colour. -/
def extractChannel (w h : Nat) (cfa : CFA) (out : List (List (List Nat))) :
    List (List Nat) :=
  (List.range h).map fun y => (List.range w).map fun x =>
    ((out.getD y []).getD x []).getD (siteChannel (cfaAt cfa x y)) 0

/-- Mirror a conceptual row index into `[0, h)` about the top and bottom
frame edges (used to state the common closed form of the two cubic modes). -/
def mirrorRowIdx (h : Nat) (r : Int) : Nat :=
  (if r < 0 then -r else if (h : Int) ≤ r then 2 * ((h : Int) - 1) - r else r).toNat

/-! ### Generic list-indexing helpers -/

theorem getD_map_range {α : Type} (f : Nat → α) (d : α) {i n : Nat} (h : i < n) :
    ((List.range n).map f).getD i d = f i := by
  simp [List.getD, List.getElem?_map, List.getElem?_range, h]

theorem getD_append_left {α : Type} (l₁ l₂ : List α) (d : α) {i : Nat}
    (h : i < l₁.length) : (l₁ ++ l₂).getD i d = l₁.getD i d := by
  simp [List.getD, List.getElem?_append, h]

theorem getD_append_right {α : Type} (l₁ l₂ : List α) (d : α) (i : Nat) :
    (l₁ ++ l₂).getD (l₁.length + i) d = l₂.getD i d := by
  simp [List.getD, List.getElem?_append_right, Nat.le_add_right]

theorem getD_eq_default {α : Type} (l : List α) (d : α) {i : Nat}
    (h : l.length ≤ i) : l.getD i d = d := by
  simp [List.getD, List.getElem?_eq_none h]

theorem getD_append3_left {α : Type} (l₁ l₂ l₃ : List α) (d : α) {i : Nat}
    (h : i < l₁.length) : (l₁ ++ l₂ ++ l₃).getD i d = l₁.getD i d := by
  rw [List.append_assoc, getD_append_left _ _ _ h]

theorem getD_append3_mid {α : Type} (l₁ l₂ l₃ : List α) (d : α) {i : Nat}
    (h : i < l₂.length) : (l₁ ++ l₂ ++ l₃).getD (l₁.length + i) d = l₂.getD i d := by
  rw [List.append_assoc, getD_append_right, getD_append_left _ _ _ h]

theorem getD_append3_right {α : Type} (l₁ l₂ l₃ : List α) (d : α) (i : Nat) :
    (l₁ ++ l₂ ++ l₃).getD (l₁.length + l₂.length + i) d = l₃.getD i d := by
  rw [List.append_assoc, Nat.add_assoc, getD_append_right, getD_append_right]

/-! ### Border-row index lemmas -/

theorem pairRun_length (n a b : Nat) : (pairRun n a b).length = 2 * n := by
  induction n with
  | zero => rfl
  | succ n ih => simp [pairRun, ih]; omega

theorem pairRun_getD {n : Nat} (a b : Nat) {k : Nat} (h : k < 2 * n) :
    (pairRun n a b).getD k 0 = if k % 2 = 0 then a else b := by
  induction n generalizing k with
  | zero => omega
  | succ n ih =>
    match k with
    | 0 => rfl
    | 1 => rfl
    | k + 2 =>
      have hk : k < 2 * n := by omega
      have hstep : (pairRun (n + 1) a b).getD (k + 2) 0 = (pairRun n a b).getD k 0 := rfl
      rw [hstep, ih hk, show (k + 2) % 2 = k % 2 by omega]

theorem replicateLeft_length (p : Nat) (row : List Nat) :
    (replicateLeft p row).length = p := by
  unfold replicateLeft
  by_cases h : p % 2 = 1 <;> simp [h, pairRun_length] <;> omega

theorem replicateRight_length (p : Nat) (row : List Nat) :
    (replicateRight p row).length = p := by
  unfold replicateRight
  by_cases h : p % 2 = 1 <;> simp [h, pairRun_length] <;> omega

theorem replicateLine_length (p : Nat) (row : List Nat) :
    (replicateLine p row).length = row.length + 2 * p := by
  simp [replicateLine, replicateLeft_length, replicateRight_length]
  omega

/-- Interior samples are placed verbatim at `[p, p + w)`. -/
theorem replicateLine_getD_mid (p : Nat) (row : List Nat) {i : Nat}
    (h : i < row.length) : (replicateLine p row).getD (p + i) 0 = row.getD i 0 := by
  rw [replicateLine, show p + i = (replicateLeft p row).length + i by
    rw [replicateLeft_length], getD_append3_mid _ _ _ _ h]

/-- Left replicate border: cell `k` holds the interior sample of index
`(k + p) % 2`, i.e. the nearest same-parity sample of the first pair. -/
theorem replicateLine_getD_left (p : Nat) (row : List Nat) {k : Nat} (h : k < p) :
    (replicateLine p row).getD k 0 = row.getD ((k + p) % 2) 0 := by
  rw [replicateLine,
    getD_append3_left _ _ _ _ (by rw [replicateLeft_length]; exact h), replicateLeft]
  rcases Nat.mod_two_eq_zero_or_one p with hp | hp
  · rw [if_neg (by omega), List.nil_append, pairRun_getD _ _ (by omega),
      show (k + p) % 2 = k % 2 by omega]
    by_cases hk : k % 2 = 0
    · rw [if_pos hk, hk]
    · rw [if_neg hk, show k % 2 = 1 by omega]
  · rw [if_pos hp]
    match k with
    | 0 =>
      rw [show (0 + p) % 2 = 1 by omega]
      rfl
    | k + 1 =>
      rw [List.singleton_append, List.getD_cons_succ, pairRun_getD _ _ (by omega),
        show (k + 1 + p) % 2 = k % 2 by omega]
      by_cases hk : k % 2 = 0
      · rw [if_pos hk, hk]
      · rw [if_neg hk, show k % 2 = 1 by omega]

/-- Right replicate border: cell `t` past the interior holds the interior
sample of index `w - 2 + t % 2`, the nearest same-parity sample of the last
pair. -/
theorem replicateLine_getD_right (p : Nat) (row : List Nat) (hw : 2 ≤ row.length)
    {t : Nat} (h : t < p) :
    (replicateLine p row).getD (p + row.length + t) 0
      = row.getD (row.length - 2 + t % 2) 0 := by
  rw [replicateLine, show p + row.length + t
      = (replicateLeft p row).length + row.length + t by rw [replicateLeft_length],
    getD_append3_right, replicateRight]
  rcases Nat.mod_two_eq_zero_or_one p with hp | hp
  · rw [if_neg (by omega), List.append_nil, pairRun_getD _ _ (by omega)]
    by_cases ht : t % 2 = 0
    · rw [if_pos ht, ht, Nat.add_zero]
    · rw [if_neg ht, show t % 2 = 1 by omega,
        show row.length - 2 + 1 = row.length - 1 by omega]
  · by_cases ht : t < 2 * (p / 2)
    · rw [getD_append_left _ _ _ (by rw [pairRun_length]; exact ht),
        pairRun_getD _ _ ht]
      by_cases ht2 : t % 2 = 0
      · rw [if_pos ht2, ht2, Nat.add_zero]
      · rw [if_neg ht2, show t % 2 = 1 by omega,
          show row.length - 2 + 1 = row.length - 1 by omega]
    · rw [if_pos hp, show row.length - 2 + t % 2 = row.length - 2 by omega,
        show t = (pairRun (p / 2) (row.getD (row.length - 2) 0)
          (row.getD (row.length - 1) 0)).length + 0 by rw [pairRun_length]; omega,
        getD_append_right]
      rfl

theorem mirrorLine_length (p : Nat) (row : List Nat) :
    (mirrorLine p row).length = row.length + 2 * p := by
  simp [mirrorLine]
  omega

theorem mirrorLine_getD_mid (p : Nat) (row : List Nat) {i : Nat}
    (h : i < row.length) : (mirrorLine p row).getD (p + i) 0 = row.getD i 0 := by
  rw [mirrorLine, show p + i
      = ((List.range p).map fun k => row.getD (p - k) 0).length + i by simp,
    getD_append3_mid _ _ _ _ h]

theorem mirrorLine_getD_left (p : Nat) (row : List Nat) {k : Nat} (h : k < p) :
    (mirrorLine p row).getD k 0 = row.getD (p - k) 0 := by
  rw [mirrorLine, getD_append3_left _ _ _ _ (by simp [h]), getD_map_range _ _ h]

theorem mirrorLine_getD_right (p : Nat) (row : List Nat) {t : Nat} (h : t < p) :
    (mirrorLine p row).getD (p + row.length + t) 0
      = row.getD (row.length - 2 - t) 0 := by
  rw [mirrorLine, show p + row.length + t
      = ((List.range p).map fun k => row.getD (p - k) 0).length + row.length + t by
      simp,
    getD_append3_right, getD_map_range _ _ h]

/-! ### CFA phase algebra helpers -/

theorem next_x_involutive (c : CFA) : c.next_x.next_x = c := by
  cases c <;> rfl

theorem next_y_involutive (c : CFA) : c.next_y.next_y = c := by
  cases c <;> rfl

theorem next_x_iterate (k : Nat) (c : CFA) :
    CFA.next_x^[k] c = if k % 2 = 0 then c else c.next_x := by
  induction k with
  | zero => simp
  | succ k ih =>
    rw [Function.iterate_succ_apply', ih]
    by_cases hk : k % 2 = 0
    · rw [if_pos hk, if_neg (by omega)]
    · rw [if_neg hk, if_pos (by omega), next_x_involutive]

theorem next_y_iterate (k : Nat) (c : CFA) :
    CFA.next_y^[k] c = if k % 2 = 0 then c else c.next_y := by
  induction k with
  | zero => simp
  | succ k ih =>
    rw [Function.iterate_succ_apply', ih]
    by_cases hk : k % 2 = 0
    · rw [if_pos hk, if_neg (by omega)]
    · rw [if_neg hk, if_pos (by omega), next_y_involutive]

/-! ### Claim theorems (first group) -/

/-- C8: for every CFA phase, `next_x` and `next_y` are involutions, their
compositions generate all four phases from any starting phase, and
`next_x` followed by `next_y` exchanges the diagonal opposites
BGGR ↔ RGGB and GBRG ↔ GRBG. -/
theorem C8_cfa_phase_algebra :
    (∀ c : CFA, c.next_x.next_x = c) ∧
    (∀ c : CFA, c.next_y.next_y = c) ∧
    (∀ c d : CFA, d = c ∨ d = c.next_x ∨ d = c.next_y ∨ d = c.next_x.next_y) ∧
    CFA.BGGR.next_x.next_y = CFA.RGGB ∧ CFA.RGGB.next_x.next_y = CFA.BGGR ∧
    CFA.GBRG.next_x.next_y = CFA.GRBG ∧ CFA.GRBG.next_x.next_y = CFA.GBRG := by
  refine ⟨next_x_involutive, next_y_involutive, fun c d => ?_, rfl, rfl, rfl, rfl⟩
  cases c <;> cases d <;> decide

/-- C7: on a row of width `w`, both the replicate border reader
(precondition `w ≥ 2`) and the mirror border reader (precondition `w > p`)
succeed, consume exactly `w` samples from the stream, and produce a padded
row of length `w + 2p` whose middle entries `[p, p+w)` are the raw input
samples verbatim and in order. -/
theorem C7_border_readers_verbatim (p w : Nat) (s : List Nat)
    (hw2 : 2 ≤ w) (hwp : p < w) (hs : w ≤ s.length) :
    replicateReadLine p w s = some (replicateLine p (s.take w), s.drop w) ∧
    mirrorReadLine p w s = some (mirrorLine p (s.take w), s.drop w) ∧
    (replicateLine p (s.take w)).length = w + 2 * p ∧
    (mirrorLine p (s.take w)).length = w + 2 * p ∧
    (∀ i < w, (replicateLine p (s.take w)).getD (p + i) 0 = s.getD i 0) ∧
    (∀ i < w, (mirrorLine p (s.take w)).getD (p + i) 0 = s.getD i 0) := by
  have htake : (s.take w).length = w := by
    rw [List.length_take]
    omega
  have hgetD : ∀ i < w, (s.take w).getD i 0 = s.getD i 0 := by
    intro i hi
    simp [List.getD, List.getElem?_take, hi]
  refine ⟨by rw [replicateReadLine, if_pos hs], by rw [mirrorReadLine, if_pos hs],
    by rw [replicateLine_length, htake], by rw [mirrorLine_length, htake],
    fun i hi => ?_, fun i hi => ?_⟩
  · rw [replicateLine_getD_mid _ _ (by omega : i < (s.take w).length), hgetD i hi]
  · rw [mirrorLine_getD_mid _ _ (by omega : i < (s.take w).length), hgetD i hi]

theorem C7_witness :
    (2 ≤ 5 ∧ 3 < 5 ∧ 5 ≤ ([1, 2, 3, 4, 5, 6] : List Nat).length) ∧
    (replicateReadLine 3 5 [1, 2, 3, 4, 5, 6]
        = some (replicateLine 3 ([1, 2, 3, 4, 5, 6].take 5), [1, 2, 3, 4, 5, 6].drop 5) ∧
      mirrorReadLine 3 5 [1, 2, 3, 4, 5, 6]
        = some (mirrorLine 3 ([1, 2, 3, 4, 5, 6].take 5), [1, 2, 3, 4, 5, 6].drop 5) ∧
      (replicateLine 3 ([1, 2, 3, 4, 5, 6].take 5)).length = 5 + 2 * 3 ∧
      (mirrorLine 3 ([1, 2, 3, 4, 5, 6].take 5)).length = 5 + 2 * 3 ∧
      (∀ i < 5, (replicateLine 3 ([1, 2, 3, 4, 5, 6].take 5)).getD (3 + i) 0
          = ([1, 2, 3, 4, 5, 6] : List Nat).getD i 0) ∧
      (∀ i < 5, (mirrorLine 3 ([1, 2, 3, 4, 5, 6].take 5)).getD (3 + i) 0
          = ([1, 2, 3, 4, 5, 6] : List Nat).getD i 0)) :=
  ⟨by decide,
    C7_border_readers_verbatim 3 5 [1, 2, 3, 4, 5, 6] (by decide) (by decide) (by decide)⟩

/-- C10: in a replicate-filled row of interior width `w ≥ 2` and padding
`p`, every left border cell `k` holds the interior sample of index
`(k + p) % 2` (the member of the first interior pair with the cell's CFA
parity), every right border cell `t` holds the interior sample of index
`w - 2 + t % 2`, and when `p` is odd the leftover leftmost cell holds the
second interior sample while the leftover rightmost cell holds the
second-to-last interior sample. -/
theorem C10_replicate_border_pattern (p : Nat) (row : List Nat)
    (hw : 2 ≤ row.length) :
    (∀ k < p, (replicateLine p row).getD k 0 = row.getD ((k + p) % 2) 0) ∧
    (∀ t < p, (replicateLine p row).getD (p + row.length + t) 0
        = row.getD (row.length - 2 + t % 2) 0) ∧
    (p % 2 = 1 →
      (replicateLine p row).getD 0 0 = row.getD 1 0 ∧
      (replicateLine p row).getD (row.length + 2 * p - 1) 0
        = row.getD (row.length - 2) 0) := by
  refine ⟨fun k hk => replicateLine_getD_left p row hk,
    fun t ht => replicateLine_getD_right p row hw ht, fun hp => ⟨?_, ?_⟩⟩
  · rw [replicateLine_getD_left p row (by omega : 0 < p), Nat.zero_add, hp]
  · rw [show row.length + 2 * p - 1 = p + row.length + (p - 1) by omega,
      replicateLine_getD_right p row hw (by omega : p - 1 < p),
      show (p - 1) % 2 = 0 by omega, Nat.add_zero]

theorem C10_witness :
    (2 ≤ ([10, 20, 30, 40, 50] : List Nat).length) ∧
    ((∀ k < 3, (replicateLine 3 [10, 20, 30, 40, 50]).getD k 0
        = ([10, 20, 30, 40, 50] : List Nat).getD ((k + 3) % 2) 0) ∧
      (∀ t < 3, (replicateLine 3 [10, 20, 30, 40, 50]).getD
          (3 + ([10, 20, 30, 40, 50] : List Nat).length + t) 0
        = ([10, 20, 30, 40, 50] : List Nat).getD
          (([10, 20, 30, 40, 50] : List Nat).length - 2 + t % 2) 0) ∧
      (3 % 2 = 1 →
        (replicateLine 3 [10, 20, 30, 40, 50]).getD 0 0
          = ([10, 20, 30, 40, 50] : List Nat).getD 1 0 ∧
        (replicateLine 3 [10, 20, 30, 40, 50]).getD
            (([10, 20, 30, 40, 50] : List Nat).length + 2 * 3 - 1) 0
          = ([10, 20, 30, 40, 50] : List Nat).getD
            (([10, 20, 30, 40, 50] : List Nat).length - 2) 0)) :=
  ⟨by decide, C10_replicate_border_pattern 3 [10, 20, 30, 40, 50] (by decide)⟩

/-- C4 counterexample: on a frame failing both the resolution check and the
depth check, `run` returns `WrongResolution`, not `WrongDepth`, so
"`WrongDepth` exactly when the raster depth is incompatible" is false as
stated. -/
theorem C4_counterexample :
    check_depth BayerDepth.Depth8 RasterDepth.Depth16 = false ∧
    (runDemosaic .Linear 1 1 .Depth8 .Depth16 .RGGB [] []).status
      = .error .WrongResolution ∧
    (runDemosaic .Linear 1 1 .Depth8 .Depth16 .RGGB [] []).status
      ≠ .error .WrongDepth := by
  exact ⟨rfl, rfl, by decide⟩

/-- C4 (amended): `demosaic` returns `WrongResolution` exactly when the
width or height is below the algorithm's minimum (2 for None,
NearestNeighbour and Linear; 4 for Cubic), and `WrongDepth` exactly when
the resolution check passes but the raster depth is incompatible with the
declared sample depth; on either error nothing has been consumed from the
stream and the destination raster is unchanged. -/
theorem C4_precondition_errors (alg : Demosaic) (w h : Nat) (depth : BayerDepth)
    (rdepth : RasterDepth) (cfa : CFA) (stream : List Nat)
    (dst0 : List (List (List Nat))) :
    ((runDemosaic alg w h depth rdepth cfa stream dst0).status
        = .error .WrongResolution
      ↔ w < minDimension alg ∨ h < minDimension alg) ∧
    ((runDemosaic alg w h depth rdepth cfa stream dst0).status
        = .error .WrongDepth
      ↔ ¬(w < minDimension alg ∨ h < minDimension alg)
          ∧ check_depth depth rdepth = false) ∧
    (∀ e, (e = BayerError.WrongResolution ∨ e = BayerError.WrongDepth) →
      (runDemosaic alg w h depth rdepth cfa stream dst0).status = .error e →
      (runDemosaic alg w h depth rdepth cfa stream dst0).consumed = 0
        ∧ (runDemosaic alg w h depth rdepth cfa stream dst0).raster = dst0) ∧
    minDimension .None = 2 ∧ minDimension .NearestNeighbour = 2 ∧
    minDimension .Linear = 2 ∧ minDimension .Cubic = 4 := by
  refine ⟨?_, ?_, ?_, rfl, rfl, rfl, rfl⟩ <;>
    · unfold runDemosaic
      by_cases hres : w < minDimension alg ∨ h < minDimension alg
      · simp [hres]
      · by_cases hdep : check_depth depth rdepth
        · by_cases hio : stream.length < w * h <;> simp [hres, hdep, hio]
        · simp [hres, hdep]

theorem C4_witness :
    ((runDemosaic .Cubic 3 5 .Depth8 .Depth8 .RGGB [] []).status
        = .error .WrongResolution
      ↔ 3 < minDimension .Cubic ∨ 5 < minDimension .Cubic) ∧
    ((runDemosaic .Cubic 3 5 .Depth8 .Depth8 .RGGB [] []).status
        = .error .WrongDepth
      ↔ ¬(3 < minDimension .Cubic ∨ 5 < minDimension .Cubic)
          ∧ check_depth .Depth8 .Depth8 = false) ∧
    (∀ e, (e = BayerError.WrongResolution ∨ e = BayerError.WrongDepth) →
      (runDemosaic .Cubic 3 5 .Depth8 .Depth8 .RGGB [] []).status = .error e →
      (runDemosaic .Cubic 3 5 .Depth8 .Depth8 .RGGB [] []).consumed = 0
        ∧ (runDemosaic .Cubic 3 5 .Depth8 .Depth8 .RGGB [] []).raster = []) ∧
    minDimension .None = 2 ∧ minDimension .NearestNeighbour = 2 ∧
    minDimension .Linear = 2 ∧ minDimension .Cubic = 4 :=
  C4_precondition_errors .Cubic 3 5 .Depth8 .Depth8 .RGGB [] []

/-- C9 counterexample: an unrecognized depth code (here 7) makes the FFI
wrapper return status 2, not the claimed 1. -/
theorem C9_counterexample :
    ffiRunDemosaic false false 7 0 0 (fun _ _ => .ok ()) = 2 ∧
    ffiRunDemosaic false false 7 0 0 (fun _ _ => .ok ()) ≠ 1 := by
  exact ⟨rfl, by decide⟩

/-- C9 (amended): the FFI status code is 0 on success, 2 on
`WrongResolution`, 3 on `WrongDepth`, 1 for a null source/destination
pointer, an unrecognized CFA code, or any other decode failure — but an
unrecognized depth/endianness code returns 2 (not 1). -/
theorem C9_ffi_status_codes (srcNull dstNull : Bool) (depth be cfa : Nat)
    (runFn : BayerDepth → CFA → Except BayerError Unit) :
    (srcNull = true ∨ dstNull = true →
      ffiRunDemosaic srcNull dstNull depth be cfa runFn = 1) ∧
    (srcNull = false → dstNull = false → parseDepth depth be = none →
      ffiRunDemosaic srcNull dstNull depth be cfa runFn = 2) ∧
    (∀ d, srcNull = false → dstNull = false → parseDepth depth be = some d →
      parseCfa cfa = none →
      ffiRunDemosaic srcNull dstNull depth be cfa runFn = 1) ∧
    (∀ d c, srcNull = false → dstNull = false → parseDepth depth be = some d →
      parseCfa cfa = some c →
      ((runFn d c = .ok () →
         ffiRunDemosaic srcNull dstNull depth be cfa runFn = 0) ∧
       (runFn d c = .error .WrongResolution →
         ffiRunDemosaic srcNull dstNull depth be cfa runFn = 2) ∧
       (runFn d c = .error .WrongDepth →
         ffiRunDemosaic srcNull dstNull depth be cfa runFn = 3) ∧
       ((runFn d c = .error .NoGood ∨ runFn d c = .error .Io) →
         ffiRunDemosaic srcNull dstNull depth be cfa runFn = 1))) := by
  refine ⟨fun hnull => ?_, fun hs hd hdep => ?_, fun d hs hd hdep hcfa => ?_,
    fun d c hs hd hdep hcfa => ?_⟩
  · unfold ffiRunDemosaic
    rcases hnull with hnull | hnull <;> simp [hnull]
  · unfold ffiRunDemosaic
    simp [hs, hd, hdep]
  · unfold ffiRunDemosaic
    simp [hs, hd, hdep, hcfa]
  · refine ⟨fun hrun => ?_, fun hrun => ?_, fun hrun => ?_, fun hrun => ?_⟩ <;>
      · unfold ffiRunDemosaic
        first
        | (rcases hrun with hrun | hrun <;> simp [hs, hd, hdep, hcfa, hrun])
        | simp [hs, hd, hdep, hcfa, hrun]

theorem C9_witness :
    ffiRunDemosaic false false 8 0 3 (fun _ _ => .error .WrongDepth) = 3 :=
  ((C9_ffi_status_codes false false 8 0 3
      (fun _ _ => .error .WrongDepth)).2.2.2 BayerDepth.Depth8 CFA.RGGB
    rfl rfl rfl rfl).2.2.1 rfl

/-! ### Parallel / sequential equivalence: linear -/

theorem drop_eq_getD_cons {α : Type} (l : List α) (d : α) {m : Nat}
    (h : m < l.length) : l.drop m = l.getD m d :: l.drop (m + 1) := by
  rw [List.drop_eq_getElem_cons h]
  simp [List.getD, List.getElem?_eq_getElem h]

theorem range_eq_cons_range' (h : Nat) (hh : 1 ≤ h) :
    List.range h = 0 :: List.range' 1 (h - 1) := by
  rw [List.range_eq_range', show h = (h - 1) + 1 by omega, List.range'_succ]
  norm_num

theorem linearData_getD_zero (h : Nat) (rows : List (List Nat)) :
    (linearData h rows).getD 0 [] = (rows.map (replicateLine 1)).getD 1 [] := rfl

theorem linearData_getD_mid (h : Nat) (rows : List (List Nat)) {m : Nat}
    (h1 : 1 ≤ m) (h2 : m - 1 < rows.length) :
    (linearData h rows).getD m [] = (rows.map (replicateLine 1)).getD (m - 1) [] := by
  simp only [linearData]
  obtain ⟨k, rfl⟩ : ∃ k, m = k + 1 := ⟨m - 1, by omega⟩
  rw [getD_append_left _ _ _ (by simp; omega), List.getD_cons_succ,
    show k + 1 - 1 = k from rfl]

theorem linearData_getD_high (h : Nat) (rows : List (List Nat))
    (hlen : rows.length = h) :
    (linearData h rows).getD (h + 1) [] = (rows.map (replicateLine 1)).getD (h - 2) [] := by
  simp only [linearData]
  rw [show h + 1 = ((rows.map (replicateLine 1)).getD 1 []
      :: rows.map (replicateLine 1)).length + 0 by simp [hlen], getD_append_right]
  rfl

/-- The sequential linear loop, started at output row `y0` with its two live
buffers holding rows `y0` and `y0 + 1` of the materialized parallel frame,
produces exactly rows `y0 .. h-1` of the parallel evaluation. -/
theorem linearGo_par (maxval w h : Nat) (rows : List (List Nat))
    (hlen : rows.length = h) :
    ∀ (ups : List (List Nat)) (y0 : Nat) (cfa : CFA), 1 ≤ y0 → y0 < h →
      (rows.map (replicateLine 1)).drop (y0 + 1) = ups →
      linearGo maxval w cfa ((linearData h rows).getD y0 [])
          ((linearData h rows).getD (y0 + 1) []) ups
        = (List.range' y0 (h - y0)).map (fun y =>
            linearKernelRow maxval (CFA.next_y^[y - y0] cfa)
              ((linearData h rows).getD y []) ((linearData h rows).getD (y + 1) [])
              ((linearData h rows).getD (y + 2) []) w) := by
  have hPlen : (rows.map (replicateLine 1)).length = h := by simp [hlen]
  intro ups
  induction ups with
  | nil =>
    intro y0 cfa h1 h2 hdrop
    have hy0 : y0 = h - 1 := by
      have := List.drop_eq_nil_iff.mp hdrop
      omega
    subst hy0
    rw [show h - (h - 1) = 1 by omega, List.range'_one, List.map_singleton]
    rw [linearGo]
    have e1 : (linearData h rows).getD (h - 1 + 2) []
        = (rows.map (replicateLine 1)).getD (h - 2) [] := by
      rw [show h - 1 + 2 = h + 1 by omega, linearData_getD_high h rows hlen]
    have e2 : (linearData h rows).getD (h - 1) []
        = (rows.map (replicateLine 1)).getD (h - 2) [] := by
      rw [linearData_getD_mid h rows (by omega) (by omega)]
      congr 1
    rw [e1, e2, Nat.sub_self]
    rfl
  | cons u rest ih =>
    intro y0 cfa h1 h2 hdrop
    have hlt : y0 + 1 < h := by
      by_contra hge
      rw [List.drop_eq_nil_iff.mpr (by omega)] at hdrop
      exact List.noConfusion hdrop
    have hcons := drop_eq_getD_cons (rows.map (replicateLine 1)) [] (m := y0 + 1)
      (by omega)
    rw [hdrop] at hcons
    obtain ⟨hu, hrest'⟩ := List.cons.inj hcons
    have hrest : (rows.map (replicateLine 1)).drop (y0 + 2) = rest := hrest'.symm
    have hu2 : u = (linearData h rows).getD (y0 + 2) [] := by
      rw [linearData_getD_mid h rows (by omega) (by omega)]
      simpa using hu
    rw [linearGo, hu2, ih (y0 + 1) cfa.next_y (by omega) (by omega) hrest]
    rw [show h - y0 = (h - (y0 + 1)) + 1 by omega, List.range'_succ, List.map_cons]
    refine congrArg₂ _ (by rw [Nat.sub_self]; rfl) ?_
    apply List.map_congr_left
    intro y hy
    rw [List.mem_range'] at hy
    rw [show y - y0 = (y - (y0 + 1)) + 1 by omega, Function.iterate_succ_apply]

/-- The sequential and rayon linear pipelines agree on every frame with
`h ≥ 2` rows. -/
theorem linear_seq_eq_par (maxval w h : Nat) (cfa : CFA) (rows : List (List Nat))
    (hh : 2 ≤ h) (hlen : rows.length = h) :
    linearDebayerSeq maxval w cfa rows = linearDebayerPar maxval w h cfa rows := by
  have hPlen : (rows.map (replicateLine 1)).length = h := by simp [hlen]
  obtain ⟨r0, r1, rest, hP⟩ :
      ∃ r0 r1 rest, rows.map (replicateLine 1) = r0 :: r1 :: rest := by
    cases hM : rows.map (replicateLine 1) with
    | nil => rw [hM] at hPlen; simp at hPlen; omega
    | cons a t =>
      cases t with
      | nil => rw [hM] at hPlen; simp at hPlen; omega
      | cons b t2 => exact ⟨a, b, t2, rfl⟩
  have hseq : linearDebayerSeq maxval w cfa rows
      = linearKernelRow maxval cfa r1 r0 r1 w
        :: linearGo maxval w cfa.next_y r0 r1 rest := by
    unfold linearDebayerSeq
    rw [hP]
  have hD0 : (linearData h rows).getD 0 [] = r1 := by
    rw [linearData_getD_zero, hP]
    rfl
  have hD1 : (linearData h rows).getD 1 [] = r0 := by
    rw [linearData_getD_mid h rows (by omega) (by omega), hP]
    rfl
  have hD2 : (linearData h rows).getD 2 [] = r1 := by
    rw [linearData_getD_mid h rows (by omega) (by omega), hP]
    rfl
  have hdrop : (rows.map (replicateLine 1)).drop 2 = rest := by
    rw [hP]
    rfl
  have htail := linearGo_par maxval w h rows hlen rest 1 cfa.next_y
    (by omega) (by omega) hdrop
  rw [hD1, hD2] at htail
  rw [hseq, htail]
  unfold linearDebayerPar
  rw [range_eq_cons_range' h (by omega), List.map_cons]
  refine congrArg₂ _ ?_ ?_
  · rw [if_pos (by norm_num), hD0, hD1, hD2]
  · apply List.map_congr_left
    intro y hy
    rw [List.mem_range'] at hy
    rw [← Function.iterate_succ_apply, Nat.succ_eq_add_one,
      show y - 1 + 1 = y by omega, next_y_iterate]

/-! ### Parallel / sequential equivalence: cubic -/

theorem cubicData_getD_low (h : Nat) (rows : List (List Nat)) {q : Nat}
    (hq : q ≤ 2) :
    (cubicData h rows).getD q [] = (rows.map (mirrorLine 3)).getD (3 - q) [] := by
  simp only [cubicData]
  match q, hq with
  | 0, _ =>
    rw [getD_append_left _ _ _ (by simp)]
    rfl
  | 1, _ =>
    rw [getD_append_left _ _ _ (by simp)]
    rfl
  | 2, _ =>
    rw [getD_append_left _ _ _ (by simp)]
    rfl

theorem cubicData_getD_mid (h : Nat) (rows : List (List Nat)) {q : Nat}
    (h1 : 3 ≤ q) (h2 : q - 3 < rows.length) :
    (cubicData h rows).getD q [] = (rows.map (mirrorLine 3)).getD (q - 3) [] := by
  simp only [cubicData]
  obtain ⟨k, rfl⟩ : ∃ k, q = k + 3 := ⟨q - 3, by omega⟩
  rw [getD_append_left _ _ _ (by simp; omega)]
  rfl

theorem cubicData_getD_high (h : Nat) (rows : List (List Nat))
    (hlen : rows.length = h) {q : Nat} (h1 : h + 3 ≤ q) (h2 : q ≤ h + 5) :
    (cubicData h rows).getD q [] = (rows.map (mirrorLine 3)).getD (2 * h + 1 - q) [] := by
  simp only [cubicData]
  have hfront : ((rows.map (mirrorLine 3)).getD 3 [] :: (rows.map (mirrorLine 3)).getD 2 []
      :: (rows.map (mirrorLine 3)).getD 1 [] :: rows.map (mirrorLine 3)).length
      = h + 3 := by
    simp [hlen]
  obtain ⟨r, hr, rfl⟩ : ∃ r, r ≤ 2 ∧ q = (h + 3) + r := ⟨q - (h + 3), by omega, by omega⟩
  match r, hr with
  | 0, _ =>
    rw [show 2 * h + 1 - (h + 3 + 0) = h - 2 by omega,
      show h + 3 + 0 = ((rows.map (mirrorLine 3)).getD 3 []
        :: (rows.map (mirrorLine 3)).getD 2 []
        :: (rows.map (mirrorLine 3)).getD 1 [] :: rows.map (mirrorLine 3)).length + 0 by
        rw [hfront], getD_append_right]
    rfl
  | 1, _ =>
    rw [show 2 * h + 1 - (h + 3 + 1) = h - 3 by omega,
      show h + 3 + 1 = ((rows.map (mirrorLine 3)).getD 3 []
        :: (rows.map (mirrorLine 3)).getD 2 []
        :: (rows.map (mirrorLine 3)).getD 1 [] :: rows.map (mirrorLine 3)).length + 1 by
        rw [hfront], getD_append_right]
    rfl
  | 2, _ =>
    rw [show 2 * h + 1 - (h + 3 + 2) = h - 4 by omega,
      show h + 3 + 2 = ((rows.map (mirrorLine 3)).getD 3 []
        :: (rows.map (mirrorLine 3)).getD 2 []
        :: (rows.map (mirrorLine 3)).getD 1 [] :: rows.map (mirrorLine 3)).length + 2 by
        rw [hfront], getD_append_right]
    rfl

/-- The sequential cubic loop, started at output row `y0` with its seven
buffers holding rows `y0 - 1 .. y0 + 5` of the materialized parallel frame,
produces exactly rows `y0 .. h-1` of the parallel evaluation. -/
theorem cubicGo_par (maxval w h : Nat) (rows : List (List Nat)) (h4 : 4 ≤ h)
    (hlen : rows.length = h) :
    ∀ (ups : List (List Nat)) (y0 : Nat) (cfa : CFA), 1 ≤ y0 → y0 + 3 ≤ h →
      (rows.map (mirrorLine 3)).drop (y0 + 3) = ups →
      cubicGo maxval w cfa
          ((cubicData h rows).getD (y0 - 1) []) ((cubicData h rows).getD y0 [])
          ((cubicData h rows).getD (y0 + 1) []) ((cubicData h rows).getD (y0 + 2) [])
          ((cubicData h rows).getD (y0 + 3) []) ((cubicData h rows).getD (y0 + 4) [])
          ((cubicData h rows).getD (y0 + 5) []) ups
        = (List.range' y0 (h - y0)).map (fun y =>
            cubicKernelRow maxval (CFA.next_y^[y - y0] cfa)
              ((cubicData h rows).getD y []) ((cubicData h rows).getD (y + 1) [])
              ((cubicData h rows).getD (y + 2) []) ((cubicData h rows).getD (y + 3) [])
              ((cubicData h rows).getD (y + 4) []) ((cubicData h rows).getD (y + 5) [])
              ((cubicData h rows).getD (y + 6) []) w) := by
  have hPlen : (rows.map (mirrorLine 3)).length = h := by simp [hlen]
  intro ups
  induction ups with
  | nil =>
    intro y0 cfa h1 h2 hdrop
    have hy0 : y0 = h - 3 := by
      have := List.drop_eq_nil_iff.mp hdrop
      omega
    subst hy0
    have m3 : (cubicData h rows).getD (h + 3) [] = (cubicData h rows).getD (h + 1) [] := by
      rw [cubicData_getD_high h rows hlen (by omega) (by omega),
        cubicData_getD_mid h rows (by omega) (by omega)]
      congr 1
      omega
    have m4 : (cubicData h rows).getD (h + 4) [] = (cubicData h rows).getD h [] := by
      rw [cubicData_getD_high h rows hlen (by omega) (by omega),
        cubicData_getD_mid h rows (by omega) (by omega)]
      congr 1
      omega
    have m5 : (cubicData h rows).getD (h + 5) [] = (cubicData h rows).getD (h - 1) [] := by
      rw [cubicData_getD_high h rows hlen (by omega) (by omega),
        cubicData_getD_mid h rows (by omega) (by omega)]
      congr 1
      omega
    rw [cubicGo, show h - (h - 3) = 3 by omega, List.range'_succ,
      show h - 3 + 1 = h - 2 by omega, List.range'_succ,
      show h - 2 + 1 = h - 1 by omega, List.range'_one, List.map_cons,
      List.map_cons, List.map_singleton]
    simp only [show h - 3 + 1 = h - 2 by omega, show h - 3 + 2 = h - 1 by omega,
      show h - 3 + 3 = h by omega, show h - 3 + 4 = h + 1 by omega,
      show h - 3 + 5 = h + 2 by omega, show h - 3 + 6 = h + 3 by omega,
      show h - 2 + 1 = h - 1 by omega, show h - 2 + 2 = h by omega,
      show h - 2 + 3 = h + 1 by omega, show h - 2 + 4 = h + 2 by omega,
      show h - 2 + 5 = h + 3 by omega, show h - 2 + 6 = h + 4 by omega,
      show h - 1 + 1 = h by omega, show h - 1 + 2 = h + 1 by omega,
      show h - 1 + 3 = h + 2 by omega, show h - 1 + 4 = h + 3 by omega,
      show h - 1 + 5 = h + 4 by omega, show h - 1 + 6 = h + 5 by omega,
      Nat.sub_self, show h - 2 - (h - 3) = 1 by omega,
      show h - 1 - (h - 3) = 2 by omega, Function.iterate_one,
      show ∀ c : CFA, CFA.next_y^[2] c = c.next_y.next_y from fun c => rfl,
      Function.iterate_zero_apply, m3, m4, m5]
  | cons u rest ih =>
    intro y0 cfa h1 h2 hdrop
    have hlt : y0 + 3 < h := by
      by_contra hge
      rw [List.drop_eq_nil_iff.mpr (by omega)] at hdrop
      exact List.noConfusion hdrop
    have hcons := drop_eq_getD_cons (rows.map (mirrorLine 3)) [] (m := y0 + 3)
      (by omega)
    rw [hdrop] at hcons
    obtain ⟨hu, hrest'⟩ := List.cons.inj hcons
    have hrest : (rows.map (mirrorLine 3)).drop (y0 + 4) = rest := hrest'.symm
    have hu2 : u = (cubicData h rows).getD (y0 + 6) [] := by
      rw [cubicData_getD_mid h rows (by omega) (by omega)]
      simpa using hu
    have ihh := ih (y0 + 1) cfa.next_y (by omega) (by omega)
      (by rw [show y0 + 1 + 3 = y0 + 4 from rfl]; exact hrest)
    rw [show y0 + 1 - 1 = y0 from rfl, show y0 + 1 + 1 = y0 + 2 from rfl,
      show y0 + 1 + 2 = y0 + 3 from rfl, show y0 + 1 + 3 = y0 + 4 from rfl,
      show y0 + 1 + 4 = y0 + 5 from rfl, show y0 + 1 + 5 = y0 + 6 from rfl] at ihh
    rw [cubicGo, hu2, ihh]
    rw [show h - y0 = (h - (y0 + 1)) + 1 by omega, List.range'_succ, List.map_cons]
    refine congrArg₂ _ ?_ ?_
    · rw [Nat.sub_self]
      rfl
    · apply List.map_congr_left
      intro y hy
      rw [List.mem_range'] at hy
      rw [show y - y0 = (y - (y0 + 1)) + 1 by omega, Function.iterate_succ_apply]

/-- The sequential and rayon cubic pipelines agree on every frame with
`h ≥ 4` rows. -/
theorem cubic_seq_eq_par (maxval w h : Nat) (cfa : CFA) (rows : List (List Nat))
    (hh : 4 ≤ h) (hlen : rows.length = h) :
    cubicDebayerSeq maxval w cfa rows = cubicDebayerPar maxval w h cfa rows := by
  have hPlen : (rows.map (mirrorLine 3)).length = h := by simp [hlen]
  obtain ⟨r0, r1, r2, r3, rest, hP⟩ :
      ∃ r0 r1 r2 r3 rest, rows.map (mirrorLine 3) = r0 :: r1 :: r2 :: r3 :: rest := by
    cases hM : rows.map (mirrorLine 3) with
    | nil => rw [hM] at hPlen; simp at hPlen; omega
    | cons a t =>
      cases t with
      | nil => rw [hM] at hPlen; simp at hPlen; omega
      | cons b t2 =>
        cases t2 with
        | nil => rw [hM] at hPlen; simp at hPlen; omega
        | cons c t3 =>
          cases t3 with
          | nil => rw [hM] at hPlen; simp at hPlen; omega
          | cons d t4 => exact ⟨a, b, c, d, t4, rfl⟩
  have hseq : cubicDebayerSeq maxval w cfa rows
      = cubicKernelRow maxval cfa r3 r2 r1 r0 r1 r2 r3 w
        :: cubicGo maxval w cfa.next_y r3 r2 r1 r0 r1 r2 r3 rest := by
    unfold cubicDebayerSeq
    rw [hP]
  have hD0 : (cubicData h rows).getD 0 [] = r3 := by
    rw [cubicData_getD_low h rows (by omega), hP]
    rfl
  have hD1 : (cubicData h rows).getD 1 [] = r2 := by
    rw [cubicData_getD_low h rows (by omega), hP]
    rfl
  have hD2 : (cubicData h rows).getD 2 [] = r1 := by
    rw [cubicData_getD_low h rows (by omega), hP]
    rfl
  have hD3 : (cubicData h rows).getD 3 [] = r0 := by
    rw [cubicData_getD_mid h rows (by omega) (by omega), hP]
    rfl
  have hD4 : (cubicData h rows).getD 4 [] = r1 := by
    rw [cubicData_getD_mid h rows (by omega) (by omega), hP]
    rfl
  have hD5 : (cubicData h rows).getD 5 [] = r2 := by
    rw [cubicData_getD_mid h rows (by omega) (by omega), hP]
    rfl
  have hD6 : (cubicData h rows).getD 6 [] = r3 := by
    rw [cubicData_getD_mid h rows (by omega) (by omega), hP]
    rfl
  have hdrop4 : (rows.map (mirrorLine 3)).drop 4 = rest := by
    rw [hP]
    rfl
  have htail := cubicGo_par maxval w h rows hh hlen rest 1 cfa.next_y
    (by omega) (by omega) hdrop4
  rw [show (1 : Nat) - 1 = 0 from rfl, show (1 : Nat) + 1 = 2 from rfl,
    show (1 : Nat) + 2 = 3 from rfl, show (1 : Nat) + 3 = 4 from rfl,
    show (1 : Nat) + 4 = 5 from rfl, show (1 : Nat) + 5 = 6 from rfl,
    hD0, hD1, hD2, hD3, hD4, hD5, hD6] at htail
  rw [hseq, htail]
  unfold cubicDebayerPar
  rw [range_eq_cons_range' h (by omega), List.map_cons]
  refine congrArg₂ _ ?_ ?_
  · rw [if_pos (by norm_num), hD0, hD1, hD2, hD3, hD4, hD5, hD6]
  · apply List.map_congr_left
    intro y hy
    rw [List.mem_range'] at hy
    rw [← Function.iterate_succ_apply, Nat.succ_eq_add_one,
      show y - 1 + 1 = y by omega, next_y_iterate]

/-- C3: for every channel maximum (hence every sample depth and
endianness), frame width, CFA phase and input frame, the whole-frame
(rayon) implementation produces a raster identical to the sequential
sliding-window implementation.  Linear and Cubic are the two algorithms
with distinct parallel and sequential implementations in the source; None
and NearestNeighbour have a single implementation serving both modes, for
which the property is definitional. -/
theorem C3_parallel_equals_sequential (maxval w h : Nat) (cfa : CFA)
    (rows : List (List Nat)) (hlen : rows.length = h) :
    (2 ≤ h → linearDebayerSeq maxval w cfa rows = linearDebayerPar maxval w h cfa rows) ∧
    (4 ≤ h → cubicDebayerSeq maxval w cfa rows = cubicDebayerPar maxval w h cfa rows) :=
  ⟨fun hh => linear_seq_eq_par maxval w h cfa rows hh hlen,
   fun hh => cubic_seq_eq_par maxval w h cfa rows hh hlen⟩

theorem C3_witness :
    (chunkRows 4 4 (List.range 16)).length = 4 ∧
    linearDebayerSeq 255 4 CFA.RGGB (chunkRows 4 4 (List.range 16))
      = linearDebayerPar 255 4 4 CFA.RGGB (chunkRows 4 4 (List.range 16)) ∧
    cubicDebayerSeq 255 4 CFA.RGGB (chunkRows 4 4 (List.range 16))
      = cubicDebayerPar 255 4 4 CFA.RGGB (chunkRows 4 4 (List.range 16)) :=
  ⟨by decide,
   (C3_parallel_equals_sequential 255 4 4 CFA.RGGB
      (chunkRows 4 4 (List.range 16)) (by decide)).1 (by decide),
   (C3_parallel_equals_sequential 255 4 4 CFA.RGGB
      (chunkRows 4 4 (List.range 16)) (by decide)).2 (by decide)⟩

/-! ### The None algorithm (claim C5) -/

theorem noneGo_eq (w : Nat) (cfa : CFA) (rows : List (List Nat)) :
    noneGo w cfa rows = (List.range rows.length).map
      (fun y => noneKernelRow (CFA.next_y^[y] cfa) (rows.getD y []) w) := by
  induction rows generalizing cfa with
  | nil => rfl
  | cons u rest ih =>
    rw [noneGo, ih, List.length_cons, List.range_succ_eq_map, List.map_cons,
      List.map_map]
    refine congrArg₂ _ rfl ?_
    apply List.map_congr_left
    intro y hy
    simp only [Function.comp_apply, Function.iterate_succ_apply,
      List.getD_cons_succ]

theorem noneKernelRow_pixel (cfa : CFA) (row : List Nat) (w : Nat) {x k : Nat}
    (hx : x < w) (hk : k < 3) :
    ((noneKernelRow cfa row w).getD x []).getD k 0
      = if k = siteChannel (CFA.next_x^[x] cfa) then row.getD x 0 else 0 := by
  unfold noneKernelRow
  rw [getD_map_range _ _ hx, next_x_iterate]
  interval_cases k <;>
    rcases Nat.mod_two_eq_zero_or_one x with hx2 | hx2 <;>
    cases cfa <;>
    simp [hx2, noneKernelC, noneKernelG, siteChannel, CFA.next_x]

/-- C5: the None algorithm writes the raw sample into the channel matching
the pixel's own CFA colour and zero into the other two channels, and
extracting only the sampled channel per site reproduces the raw frame
exactly. -/
theorem C5_none_writes_and_roundtrip (w h : Nat) (cfa : CFA)
    (rows : List (List Nat)) (hw : 2 ≤ w) (hh : 2 ≤ h) (hlen : rows.length = h)
    (hrow : ∀ r ∈ rows, r.length = w) :
    (∀ x y k, x < w → y < h → k < 3 →
      (((noneDebayer w cfa rows).getD y []).getD x []).getD k 0
        = if k = siteChannel (cfaAt cfa x y) then (rows.getD y []).getD x 0 else 0) ∧
    extractChannel w h cfa (noneDebayer w cfa rows) = rows := by
  have hpix : ∀ x y k, x < w → y < h → k < 3 →
      (((noneDebayer w cfa rows).getD y []).getD x []).getD k 0
        = if k = siteChannel (cfaAt cfa x y) then (rows.getD y []).getD x 0 else 0 := by
    intro x y k hx hy hk
    rw [noneDebayer, noneGo_eq, getD_map_range _ _ (by omega : y < rows.length),
      noneKernelRow_pixel _ _ _ hx hk, cfaAt]
  refine ⟨hpix, ?_⟩
  apply List.ext_getElem
  · simp [extractChannel, hlen]
  · intro y h1 h2
    have hyh : y < h := by
      simpa [extractChannel] using h1
    have hget : rows.getD y [] = rows[y] := by
      simp [List.getD, List.getElem?_eq_getElem (by omega : y < rows.length)]
    have hrowlen : (rows.getD y []).length = w := by
      rw [hget]
      exact hrow _ (List.getElem_mem _)
    have hylen : rows[y].length = w := by
      rw [← hget]
      exact hrowlen
    have houter : (extractChannel w h cfa (noneDebayer w cfa rows))[y]
        = (List.range w).map fun x =>
          (((noneDebayer w cfa rows).getD y []).getD x []).getD
            (siteChannel (cfaAt cfa x y)) 0 := by
      simp [extractChannel]
    rw [houter]
    apply List.ext_getElem
    · simp [hylen]
    · intro x hx1 hx2
      have hxw : x < w := by simpa using hx1
      have hsite : siteChannel (cfaAt cfa x y) < 3 := by
        cases cfaAt cfa x y <;> decide
      rw [List.getElem_map, List.getElem_range,
        hpix x y (siteChannel (cfaAt cfa x y)) hxw hyh hsite, if_pos rfl]
      simp [List.getD, List.getElem?_eq_getElem (by omega : y < rows.length),
        List.getElem?_eq_getElem (show x < rows[y].length by omega)]

theorem C5_witness :
    (2 ≤ 2 ∧ 2 ≤ 2 ∧ ([[1, 2], [3, 4]] : List (List Nat)).length = 2 ∧
      ∀ r ∈ ([[1, 2], [3, 4]] : List (List Nat)), r.length = 2) ∧
    ((∀ x y k, x < 2 → y < 2 → k < 3 →
      (((noneDebayer 2 CFA.RGGB [[1, 2], [3, 4]]).getD y []).getD x []).getD k 0
        = if k = siteChannel (cfaAt CFA.RGGB x y)
          then (([[1, 2], [3, 4]] : List (List Nat)).getD y []).getD x 0 else 0) ∧
      extractChannel 2 2 CFA.RGGB (noneDebayer 2 CFA.RGGB [[1, 2], [3, 4]])
        = [[1, 2], [3, 4]]) :=
  ⟨⟨by decide, by decide, by decide, by decide⟩,
   C5_none_writes_and_roundtrip 2 2 CFA.RGGB [[1, 2], [3, 4]]
     (by decide) (by decide) (by decide) (by decide)⟩

/-! ### Flat-field invariance (claim C6) -/

theorem getD_replicate_of_lt (n c : Nat) {i : Nat} (h : i < n) :
    (List.replicate n c).getD i 0 = c := by
  simp [List.getD, List.getElem?_replicate, h]

theorem pairRun_const (n c : Nat) : pairRun n c c = List.replicate (2 * n) c := by
  induction n with
  | zero => rfl
  | succ n ih =>
    rw [pairRun, ih, show 2 * (n + 1) = 2 * n + 1 + 1 by omega,
      List.replicate_succ, List.replicate_succ]

theorem replicateLine_const (p w c : Nat) (hw : 2 ≤ w) :
    replicateLine p (List.replicate w c) = List.replicate (w + 2 * p) c := by
  have hleft : replicateLeft p (List.replicate w c) = List.replicate p c := by
    unfold replicateLeft
    rw [getD_replicate_of_lt _ _ (show 1 < w by omega),
      getD_replicate_of_lt _ _ (show 0 < w by omega), pairRun_const]
    rcases Nat.mod_two_eq_zero_or_one p with hp | hp
    · rw [if_neg (by omega), List.nil_append]
      congr 1
      omega
    · rw [if_pos hp, List.singleton_append,
        show List.replicate p c = c :: List.replicate (2 * (p / 2)) c by
          rw [← List.replicate_succ]
          congr 1
          omega]
  have hright : replicateRight p (List.replicate w c) = List.replicate p c := by
    unfold replicateRight
    simp only [List.length_replicate]
    rw [getD_replicate_of_lt _ _ (show w - 2 < w by omega),
      getD_replicate_of_lt _ _ (show w - 1 < w by omega), pairRun_const]
    rcases Nat.mod_two_eq_zero_or_one p with hp | hp
    · rw [if_neg (by omega), List.append_nil]
      congr 1
      omega
    · rw [if_pos hp,
        show List.replicate p c = List.replicate (2 * (p / 2)) c ++ [c] by
          rw [← List.replicate_succ']
          congr 1
          omega]
  rw [replicateLine, hleft, hright, ← List.replicate_add, ← List.replicate_add]
  congr 1
  omega

theorem mirrorLine_const (p w c : Nat) (hpw : p < w) :
    mirrorLine p (List.replicate w c) = List.replicate (w + 2 * p) c := by
  unfold mirrorLine
  simp only [List.length_replicate]
  have hl : ((List.range p).map fun k => (List.replicate w c).getD (p - k) 0)
      = List.replicate p c := by
    rw [show List.replicate p c = (List.range p).map (fun _ => c) by
      rw [List.map_const']
      simp]
    apply List.map_congr_left
    intro k hk
    exact getD_replicate_of_lt _ _ (by omega)
  have hr : ((List.range p).map fun t => (List.replicate w c).getD (w - 2 - t) 0)
      = List.replicate p c := by
    rw [show List.replicate p c = (List.range p).map (fun _ => c) by
      rw [List.map_const']
      simp]
    apply List.map_congr_left
    intro t ht
    exact getD_replicate_of_lt _ _ (by omega)
  rw [hl, hr, ← List.replicate_add, ← List.replicate_add]
  congr 1
  omega

theorem linearKernelC_const (maxval c : Nat) (cfa : CFA) (hc : c ≤ maxval)
    {n i : Nat} (hi : i + 2 < n) :
    linearKernelC maxval cfa (List.replicate n c) (List.replicate n c)
      (List.replicate n c) i = [c, c, c] := by
  unfold linearKernelC
  simp only [show i + 1 - 1 = i from rfl, show i + 1 + 1 = i + 2 from rfl,
    getD_replicate_of_lt _ _ (show i < n by omega),
    getD_replicate_of_lt _ _ (show i + 1 < n by omega),
    getD_replicate_of_lt _ _ hi]
  rw [show (c + c + c + c) / 4 = c by omega, Nat.mod_eq_of_lt (by omega)]
  split_ifs <;> rfl

theorem linearKernelG_const (maxval c : Nat) (cfa : CFA) (hc : c ≤ maxval)
    {n i : Nat} (hi : i + 2 < n) :
    linearKernelG maxval cfa (List.replicate n c) (List.replicate n c)
      (List.replicate n c) i = [c, c, c] := by
  unfold linearKernelG
  simp only [show i + 1 - 1 = i from rfl, show i + 1 + 1 = i + 2 from rfl,
    getD_replicate_of_lt _ _ (show i < n by omega),
    getD_replicate_of_lt _ _ (show i + 1 < n by omega),
    getD_replicate_of_lt _ _ hi]
  rw [show (c + c) / 2 = c by omega, Nat.mod_eq_of_lt (by omega)]
  split_ifs <;> rfl

theorem linearKernelRow_const (maxval w c : Nat) (cfa : CFA) (hc : c ≤ maxval) :
    linearKernelRow maxval cfa (List.replicate (w + 2) c) (List.replicate (w + 2) c)
      (List.replicate (w + 2) c) w = List.replicate w [c, c, c] := by
  unfold linearKernelRow
  rw [show List.replicate w ([c, c, c]) = (List.range w).map (fun _ => [c, c, c]) by
    rw [List.map_const']
    simp]
  apply List.map_congr_left
  intro i hi
  rw [List.mem_range] at hi
  split_ifs <;>
    first
      | exact linearKernelC_const maxval c _ hc (by omega)
      | exact linearKernelG_const maxval c _ hc (by omega)

theorem cubicKernelC_const (maxval c : Nat) (cfa : CFA) (hc : c ≤ maxval)
    {n i : Nat} (hi : i + 6 < n) :
    cubicKernelC maxval cfa (List.replicate n c) (List.replicate n c)
      (List.replicate n c) (List.replicate n c) (List.replicate n c)
      (List.replicate n c) (List.replicate n c) i = [c, c, c] := by
  unfold cubicKernelC cubicGPos cubicGNeg cubicDPos cubicDNeg
  simp only [show i + 3 - 1 = i + 2 from rfl, show i + 3 + 1 = i + 4 from rfl,
    show i + 3 - 2 = i + 1 from rfl, show i + 3 + 2 = i + 5 from rfl,
    show i + 3 - 3 = i from rfl, show i + 3 + 3 = i + 6 from rfl,
    getD_replicate_of_lt _ _ (show i < n by omega),
    getD_replicate_of_lt _ _ (show i + 1 < n by omega),
    getD_replicate_of_lt _ _ (show i + 2 < n by omega),
    getD_replicate_of_lt _ _ (show i + 3 < n by omega),
    getD_replicate_of_lt _ _ (show i + 4 < n by omega),
    getD_replicate_of_lt _ _ (show i + 5 < n by omega),
    getD_replicate_of_lt _ _ hi]
  rw [show (c + c + c + c) * 81 + (c + c + c + c)
      - (c + c + c + c + c + c + c + c) * 9 = 256 * c by omega,
    show 256 * c / 256 = c by omega, min_eq_left hc, Nat.mod_eq_of_lt (by omega)]
  split_ifs <;> rfl

theorem cubicKernelG_const (maxval c : Nat) (cfa : CFA) (hc : c ≤ maxval)
    {n i : Nat} (hi : i + 6 < n) :
    cubicKernelG maxval cfa (List.replicate n c) (List.replicate n c)
      (List.replicate n c) (List.replicate n c) (List.replicate n c) i
      = [c, c, c] := by
  unfold cubicKernelG
  simp only [show i + 3 - 1 = i + 2 from rfl, show i + 3 + 1 = i + 4 from rfl,
    show i + 3 - 3 = i from rfl, show i + 3 + 3 = i + 6 from rfl,
    getD_replicate_of_lt _ _ (show i < n by omega),
    getD_replicate_of_lt _ _ (show i + 2 < n by omega),
    getD_replicate_of_lt _ _ (show i + 3 < n by omega),
    getD_replicate_of_lt _ _ (show i + 4 < n by omega),
    getD_replicate_of_lt _ _ hi]
  rw [show ((c + c) * 9 - (c + c)) / 16 = c by omega, min_eq_left hc,
    Nat.mod_eq_of_lt (by omega)]
  split_ifs <;> rfl

theorem cubicKernelRow_const (maxval w c : Nat) (cfa : CFA) (hc : c ≤ maxval) :
    cubicKernelRow maxval cfa (List.replicate (w + 6) c) (List.replicate (w + 6) c)
      (List.replicate (w + 6) c) (List.replicate (w + 6) c) (List.replicate (w + 6) c)
      (List.replicate (w + 6) c) (List.replicate (w + 6) c) w
      = List.replicate w [c, c, c] := by
  unfold cubicKernelRow
  rw [show List.replicate w ([c, c, c]) = (List.range w).map (fun _ => [c, c, c]) by
    rw [List.map_const']
    simp]
  apply List.map_congr_left
  intro i hi
  rw [List.mem_range] at hi
  split_ifs <;>
    first
      | exact cubicKernelC_const maxval c _ hc (by omega)
      | exact cubicKernelG_const maxval c _ hc (by omega)

theorem nnKernelC_const (c : Nat) (cfa : CFA) {n i : Nat} (hi : i + 1 < n) :
    nnKernelC cfa (List.replicate n c) (List.replicate n c) i = [c, c, c] := by
  unfold nnKernelC
  simp only [show i + 1 - 1 = i from rfl,
    getD_replicate_of_lt _ _ (show i < n by omega),
    getD_replicate_of_lt _ _ hi]
  split_ifs <;> rfl

theorem nnKernelG_const (c : Nat) (cfa : CFA) {n i : Nat} (hi : i + 1 < n) :
    nnKernelG cfa (List.replicate n c) (List.replicate n c) i = [c, c, c] := by
  unfold nnKernelG
  simp only [show i + 1 - 1 = i from rfl,
    getD_replicate_of_lt _ _ (show i < n by omega),
    getD_replicate_of_lt _ _ hi]
  split_ifs <;> rfl

theorem nnKernelRow_const (w c : Nat) (cfa : CFA) :
    nnKernelRow cfa (List.replicate (w + 2) c) (List.replicate (w + 2) c) w
      = List.replicate w [c, c, c] := by
  unfold nnKernelRow
  rw [show List.replicate w ([c, c, c]) = (List.range w).map (fun _ => [c, c, c]) by
    rw [List.map_const']
    simp]
  apply List.map_congr_left
  intro i hi
  rw [List.mem_range] at hi
  cases hcase : CFA.next_x^[i] cfa <;>
    first
      | exact nnKernelC_const c _ (by omega)
      | exact nnKernelG_const c _ (by omega)

theorem nnGo_const (w c : Nat) :
    ∀ (n : Nat) (cfa : CFA),
      nnGo w cfa (List.replicate (w + 2) c)
          (List.replicate n (List.replicate (w + 2) c))
        = List.replicate n (List.replicate w [c, c, c]) := by
  intro n
  induction n with
  | zero => intro cfa; rfl
  | succ n ih =>
    intro cfa
    show nnKernelRow cfa (List.replicate (w + 2) c) (List.replicate (w + 2) c) w
        :: nnGo w cfa.next_y (List.replicate (w + 2) c)
          (List.replicate n (List.replicate (w + 2) c))
      = List.replicate (n + 1) (List.replicate w [c, c, c])
    rw [nnKernelRow_const, ih cfa.next_y]
    rfl

theorem linearGo_const (maxval w c : Nat) (hc : c ≤ maxval) :
    ∀ (n : Nat) (cfa : CFA),
      linearGo maxval w cfa (List.replicate (w + 2) c) (List.replicate (w + 2) c)
          (List.replicate n (List.replicate (w + 2) c))
        = List.replicate (n + 1) (List.replicate w [c, c, c]) := by
  intro n
  induction n with
  | zero =>
    intro cfa
    rw [show List.replicate 0 (List.replicate (w + 2) c) = [] from rfl, linearGo,
      linearKernelRow_const maxval w c cfa hc]
    rfl
  | succ n ih =>
    intro cfa
    show linearKernelRow maxval cfa (List.replicate (w + 2) c)
        (List.replicate (w + 2) c) (List.replicate (w + 2) c) w
        :: linearGo maxval w cfa.next_y (List.replicate (w + 2) c)
          (List.replicate (w + 2) c) (List.replicate n (List.replicate (w + 2) c))
      = List.replicate (n + 1 + 1) (List.replicate w [c, c, c])
    rw [linearKernelRow_const maxval w c cfa hc, ih cfa.next_y]
    rfl

theorem cubicGo_const (maxval w c : Nat) (hc : c ≤ maxval) :
    ∀ (n : Nat) (cfa : CFA),
      cubicGo maxval w cfa (List.replicate (w + 6) c) (List.replicate (w + 6) c)
          (List.replicate (w + 6) c) (List.replicate (w + 6) c)
          (List.replicate (w + 6) c) (List.replicate (w + 6) c)
          (List.replicate (w + 6) c)
          (List.replicate n (List.replicate (w + 6) c))
        = List.replicate (n + 3) (List.replicate w [c, c, c]) := by
  intro n
  induction n with
  | zero =>
    intro cfa
    rw [show List.replicate 0 (List.replicate (w + 6) c) = [] from rfl, cubicGo,
      cubicKernelRow_const maxval w c cfa hc,
      cubicKernelRow_const maxval w c cfa.next_y hc,
      cubicKernelRow_const maxval w c cfa.next_y.next_y hc]
    rfl
  | succ n ih =>
    intro cfa
    show cubicKernelRow maxval cfa (List.replicate (w + 6) c)
        (List.replicate (w + 6) c) (List.replicate (w + 6) c)
        (List.replicate (w + 6) c) (List.replicate (w + 6) c)
        (List.replicate (w + 6) c) (List.replicate (w + 6) c) w
        :: cubicGo maxval w cfa.next_y (List.replicate (w + 6) c)
          (List.replicate (w + 6) c) (List.replicate (w + 6) c)
          (List.replicate (w + 6) c) (List.replicate (w + 6) c)
          (List.replicate (w + 6) c) (List.replicate (w + 6) c)
          (List.replicate n (List.replicate (w + 6) c))
      = List.replicate (n + 1 + 3) (List.replicate w [c, c, c])
    rw [cubicKernelRow_const maxval w c cfa hc, ih cfa.next_y]
    rfl

/-- C6: a flat (constant) raw frame of value `c ≤ maxval` decodes to the
constant raster `[c, c, c]` at every pixel, for NearestNeighbour, Linear and
Cubic, at every frame size meeting each algorithm's minimum, for every CFA
phase and channel maximum. -/
theorem C6_flat_field_invariance (maxval w h c : Nat) (cfa : CFA)
    (hc : c ≤ maxval) :
    (2 ≤ w → 2 ≤ h →
      nnDebayer w cfa (List.replicate h (List.replicate w c))
        = List.replicate h (List.replicate w [c, c, c])) ∧
    (2 ≤ w → 2 ≤ h →
      linearDebayerSeq maxval w cfa (List.replicate h (List.replicate w c))
        = List.replicate h (List.replicate w [c, c, c])) ∧
    (4 ≤ w → 4 ≤ h →
      cubicDebayerSeq maxval w cfa (List.replicate h (List.replicate w c))
        = List.replicate h (List.replicate w [c, c, c])) := by
  refine ⟨fun hw hh => ?_, fun hw hh => ?_, fun hw hh => ?_⟩
  · obtain ⟨m, rfl⟩ : ∃ m, h = m + 1 + 1 := ⟨h - 2, by omega⟩
    unfold nnDebayer
    rw [List.map_replicate, replicateLine_const 1 w c hw,
      show w + 2 * 1 = w + 2 from rfl]
    show nnKernelRow cfa (List.replicate (w + 2) c) (List.replicate (w + 2) c) w
        :: nnKernelRow cfa.next_y (List.replicate (w + 2) c)
          (List.replicate (w + 2) c) w
        :: nnGo w cfa.next_y.next_y (List.replicate (w + 2) c)
          (List.replicate m (List.replicate (w + 2) c))
      = List.replicate (m + 1 + 1) (List.replicate w [c, c, c])
    rw [nnKernelRow_const, nnKernelRow_const, nnGo_const]
    rfl
  · obtain ⟨m, rfl⟩ : ∃ m, h = m + 1 + 1 := ⟨h - 2, by omega⟩
    unfold linearDebayerSeq
    rw [List.map_replicate, replicateLine_const 1 w c hw,
      show w + 2 * 1 = w + 2 from rfl]
    show linearKernelRow maxval cfa (List.replicate (w + 2) c)
        (List.replicate (w + 2) c) (List.replicate (w + 2) c) w
        :: linearGo maxval w cfa.next_y (List.replicate (w + 2) c)
          (List.replicate (w + 2) c) (List.replicate m (List.replicate (w + 2) c))
      = List.replicate (m + 1 + 1) (List.replicate w [c, c, c])
    rw [linearKernelRow_const maxval w c cfa hc, linearGo_const maxval w c hc m]
    rfl
  · obtain ⟨m, rfl⟩ : ∃ m, h = m + 1 + 1 + 1 + 1 := ⟨h - 4, by omega⟩
    unfold cubicDebayerSeq
    rw [List.map_replicate, mirrorLine_const 3 w c (by omega),
      show w + 2 * 3 = w + 6 from rfl]
    show cubicKernelRow maxval cfa (List.replicate (w + 6) c)
        (List.replicate (w + 6) c) (List.replicate (w + 6) c)
        (List.replicate (w + 6) c) (List.replicate (w + 6) c)
        (List.replicate (w + 6) c) (List.replicate (w + 6) c) w
        :: cubicGo maxval w cfa.next_y (List.replicate (w + 6) c)
          (List.replicate (w + 6) c) (List.replicate (w + 6) c)
          (List.replicate (w + 6) c) (List.replicate (w + 6) c)
          (List.replicate (w + 6) c) (List.replicate (w + 6) c)
          (List.replicate m (List.replicate (w + 6) c))
      = List.replicate (m + 1 + 1 + 1 + 1) (List.replicate w [c, c, c])
    rw [cubicKernelRow_const maxval w c cfa hc, cubicGo_const maxval w c hc m]
    rfl

theorem C6_witness :
    7 ≤ 255 ∧
    ((2 ≤ 4 → 2 ≤ 5 →
      nnDebayer 4 CFA.GRBG (List.replicate 5 (List.replicate 4 7))
        = List.replicate 5 (List.replicate 4 [7, 7, 7])) ∧
    (2 ≤ 4 → 2 ≤ 5 →
      linearDebayerSeq 255 4 CFA.GRBG (List.replicate 5 (List.replicate 4 7))
        = List.replicate 5 (List.replicate 4 [7, 7, 7])) ∧
    (4 ≤ 4 → 4 ≤ 5 →
      cubicDebayerSeq 255 4 CFA.GRBG (List.replicate 5 (List.replicate 4 7))
        = List.replicate 5 (List.replicate 4 [7, 7, 7]))) :=
  ⟨by decide, C6_flat_field_invariance 255 4 5 7 CFA.GRBG (by decide)⟩

/-! ### Boundedness of padded rows -/

theorem getD_le_of_forall {row : List Nat} {m : Nat} (hb : ∀ v ∈ row, v ≤ m) :
    ∀ i, row.getD i 0 ≤ m := by
  intro i
  by_cases hi : i < row.length
  · rw [show row.getD i 0 = row[i] by simp [List.getD, List.getElem?_eq_getElem hi]]
    exact hb _ (List.getElem_mem _)
  · rw [getD_eq_default _ _ (by omega)]
    omega

theorem replicateLine_getD_le {row : List Nat} {m : Nat} (hw2 : 2 ≤ row.length)
    (hb : ∀ v ∈ row, v ≤ m) (p i : Nat) : (replicateLine p row).getD i 0 ≤ m := by
  have hget := getD_le_of_forall hb
  by_cases h1 : i < p
  · rw [replicateLine_getD_left p row h1]
    exact hget _
  · by_cases h2 : i < p + row.length
    · have e := replicateLine_getD_mid p row (i := i - p) (by omega)
      rw [show p + (i - p) = i by omega] at e
      rw [e]
      exact hget _
    · by_cases h3 : i < p + row.length + p
      · have e := replicateLine_getD_right p row hw2 (t := i - p - row.length)
          (by omega)
        rw [show p + row.length + (i - p - row.length) = i by omega] at e
        rw [e]
        exact hget _
      · rw [getD_eq_default _ _ (by rw [replicateLine_length]; omega)]
        omega

theorem mirrorLine_getD_le {row : List Nat} {m : Nat}
    (hb : ∀ v ∈ row, v ≤ m) (p i : Nat) : (mirrorLine p row).getD i 0 ≤ m := by
  have hget := getD_le_of_forall hb
  by_cases h1 : i < p
  · rw [mirrorLine_getD_left p row h1]
    exact hget _
  · by_cases h2 : i < p + row.length
    · have e := mirrorLine_getD_mid p row (i := i - p) (by omega)
      rw [show p + (i - p) = i by omega] at e
      rw [e]
      exact hget _
    · by_cases h3 : i < p + row.length + p
      · have e := mirrorLine_getD_right p row (t := i - p - row.length) (by omega)
        rw [show p + row.length + (i - p - row.length) = i by omega] at e
        rw [e]
        exact hget _
      · rw [getD_eq_default _ _ (by rw [mirrorLine_length]; omega)]
        omega

/-! ### Per-pixel characterization of the linear kernels (claim C2) -/

/-- The padded sample grid of the linear pipeline: entry `(py, px)` of the
materialized bordered frame (interior sample `(x, y)` sits at
`(py, px) = (y + 1, x + 1)`). -/
def linSample (h : Nat) (rows : List (List Nat)) (py px : Nat) : Nat :=
  ((linearData h rows).getD py []).getD px 0

theorem linearRow_pixel_c (maxval : Nat) (rowCfa : CFA) (prev curr next : List Nat)
    (w : Nat) {x : Nat} (hx : x < w)
    (hbp : ∀ i, prev.getD i 0 ≤ maxval) (hbc : ∀ i, curr.getD i 0 ≤ maxval)
    (hbn : ∀ i, next.getD i 0 ≤ maxval)
    (hsite : CFA.next_x^[x] rowCfa = CFA.BGGR ∨ CFA.next_x^[x] rowCfa = CFA.RGGB) :
    (((linearKernelRow maxval rowCfa prev curr next w).getD x []).getD
        (siteChannel (CFA.next_x^[x] rowCfa)) 0 = curr.getD (x + 1) 0)
    ∧ (((linearKernelRow maxval rowCfa prev curr next w).getD x []).getD 1 0
      = (prev.getD (x + 1) 0 + curr.getD x 0 + curr.getD (x + 2) 0
          + next.getD (x + 1) 0) / 4)
    ∧ (((linearKernelRow maxval rowCfa prev curr next w).getD x []).getD
        (2 - siteChannel (CFA.next_x^[x] rowCfa)) 0
      = (prev.getD x 0 + prev.getD (x + 2) 0 + next.getD x 0
          + next.getD (x + 2) 0) / 4) := by
  have hm1 : (prev.getD (x + 1) 0 + curr.getD x 0 + curr.getD (x + 2) 0
      + next.getD (x + 1) 0) / 4 % (maxval + 1)
      = (prev.getD (x + 1) 0 + curr.getD x 0 + curr.getD (x + 2) 0
      + next.getD (x + 1) 0) / 4 := by
    refine Nat.mod_eq_of_lt ?_
    have := hbp (x + 1)
    have := hbc x
    have := hbc (x + 2)
    have := hbn (x + 1)
    omega
  have hm2 : (prev.getD x 0 + prev.getD (x + 2) 0 + next.getD x 0
      + next.getD (x + 2) 0) / 4 % (maxval + 1)
      = (prev.getD x 0 + prev.getD (x + 2) 0 + next.getD x 0
      + next.getD (x + 2) 0) / 4 := by
    refine Nat.mod_eq_of_lt ?_
    have := hbp x
    have := hbp (x + 2)
    have := hbn x
    have := hbn (x + 2)
    omega
  unfold linearKernelRow
  rw [getD_map_range _ _ hx]
  rw [next_x_iterate] at hsite ⊢
  rcases Nat.mod_two_eq_zero_or_one x with hx2 | hx2 <;> cases rowCfa <;>
    simp_all [linearKernelC, linearKernelG, siteChannel, CFA.next_x]

theorem linearRow_pixel_g (maxval : Nat) (rowCfa : CFA) (prev curr next : List Nat)
    (w : Nat) {x : Nat} (hx : x < w)
    (hbp : ∀ i, prev.getD i 0 ≤ maxval) (hbc : ∀ i, curr.getD i 0 ≤ maxval)
    (hbn : ∀ i, next.getD i 0 ≤ maxval)
    (hsite : CFA.next_x^[x] rowCfa = CFA.GBRG ∨ CFA.next_x^[x] rowCfa = CFA.GRBG) :
    (((linearKernelRow maxval rowCfa prev curr next w).getD x []).getD 1 0
      = curr.getD (x + 1) 0)
    ∧ (((linearKernelRow maxval rowCfa prev curr next w).getD x []).getD
        (if CFA.next_x^[x] rowCfa = CFA.GBRG then 2 else 0) 0
      = (curr.getD x 0 + curr.getD (x + 2) 0) / 2)
    ∧ (((linearKernelRow maxval rowCfa prev curr next w).getD x []).getD
        (if CFA.next_x^[x] rowCfa = CFA.GBRG then 0 else 2) 0
      = (prev.getD (x + 1) 0 + next.getD (x + 1) 0) / 2) := by
  have hm1 : (curr.getD x 0 + curr.getD (x + 2) 0) / 2 % (maxval + 1)
      = (curr.getD x 0 + curr.getD (x + 2) 0) / 2 := by
    refine Nat.mod_eq_of_lt ?_
    have := hbc x
    have := hbc (x + 2)
    omega
  have hm2 : (prev.getD (x + 1) 0 + next.getD (x + 1) 0) / 2 % (maxval + 1)
      = (prev.getD (x + 1) 0 + next.getD (x + 1) 0) / 2 := by
    refine Nat.mod_eq_of_lt ?_
    have := hbp (x + 1)
    have := hbn (x + 1)
    omega
  unfold linearKernelRow
  rw [getD_map_range _ _ hx]
  rw [next_x_iterate] at hsite ⊢
  rcases Nat.mod_two_eq_zero_or_one x with hx2 | hx2 <;> cases rowCfa <;>
    simp_all [linearKernelC, linearKernelG, siteChannel, CFA.next_x]

theorem linear_padded_getD_le (maxval w : Nat) (rows : List (List Nat))
    (hrowlen : ∀ r ∈ rows, r.length = w) (hw : 2 ≤ w)
    (hb : ∀ r ∈ rows, ∀ v ∈ r, v ≤ maxval) :
    ∀ k i, ((rows.map (replicateLine 1)).getD k []).getD i 0 ≤ maxval := by
  intro k i
  by_cases hk : k < rows.length
  · have e : (rows.map (replicateLine 1)).getD k [] = replicateLine 1 rows[k] := by
      simp [List.getD, List.getElem?_map, List.getElem?_eq_getElem hk]
    rw [e]
    refine replicateLine_getD_le ?_ ?_ 1 i
    · rw [hrowlen _ (List.getElem_mem _)]
      exact hw
    · intro v hv
      exact hb _ (List.getElem_mem _) v hv
  · have e : (rows.map (replicateLine 1)).getD k [] = ([] : List Nat) :=
      getD_eq_default _ _ (by simpa using hk)
    rw [e]
    simp

theorem linData_getD_le (maxval w h : Nat) (rows : List (List Nat))
    (hrowlen : ∀ r ∈ rows, r.length = w) (hw : 2 ≤ w) (hlen : rows.length = h)
    (hb : ∀ r ∈ rows, ∀ v ∈ r, v ≤ maxval) :
    ∀ py px, ((linearData h rows).getD py []).getD px 0 ≤ maxval := by
  intro py px
  have hpad := linear_padded_getD_le maxval w rows hrowlen hw hb
  by_cases h0 : py = 0
  · subst h0
    rw [linearData_getD_zero]
    exact hpad 1 px
  · by_cases hmid : py ≤ h
    · rw [linearData_getD_mid h rows (by omega) (by omega)]
      exact hpad _ px
    · by_cases hhigh : py = h + 1
      · subst hhigh
        rw [linearData_getD_high h rows hlen]
        exact hpad _ px
      · have e : (linearData h rows).getD py [] = ([] : List Nat) :=
          getD_eq_default _ _ (by simp [linearData, hlen]; omega)
        rw [e]
        simp

theorem linSample_raw (w h : Nat) (rows : List (List Nat)) {x y : Nat}
    (hlen : rows.length = h) (hrowlen : ∀ r ∈ rows, r.length = w)
    (hx : x < w) (hy : y < h) :
    ((linearData h rows).getD (y + 1) []).getD (x + 1) 0
      = (rows.getD y []).getD x 0 := by
  rw [linearData_getD_mid h rows (by omega) (by omega),
    show y + 1 - 1 = y from rfl]
  have hy' : y < rows.length := by omega
  have e : (rows.map (replicateLine 1)).getD y [] = replicateLine 1 (rows.getD y []) := by
    simp [List.getD, List.getElem?_map, List.getElem?_eq_getElem hy']
  rw [e]
  have hxlen : x < (rows.getD y []).length := by
    rw [show rows.getD y [] = rows[y] by
      simp [List.getD, List.getElem?_eq_getElem hy'], hrowlen _ (List.getElem_mem _)]
    exact hx
  have e2 := replicateLine_getD_mid 1 (rows.getD y []) hxlen
  rw [show 1 + x = x + 1 by omega] at e2
  exact e2

/-- C2: for the linear algorithm, at a red/blue site the green channel is
the truncating 4-average of the cross neighbours, the own channel is the
raw sample, and the diagonal channel the 4-average of the diagonal
neighbours; at a green site the green channel is the raw sample and the two
missing colours are the 2-averages of the horizontal resp. vertical
neighbours — all neighbours taken from the bordered sample grid
`linSample` (replicate-padded rows, adjacent rows substituted at the
top/bottom edges). -/
theorem C2_linear_interpolation (maxval w h : Nat) (cfa : CFA)
    (rows : List (List Nat)) (x y : Nat) (hw : 2 ≤ w) (hh : 2 ≤ h)
    (hlen : rows.length = h) (hrowlen : ∀ r ∈ rows, r.length = w)
    (hb : ∀ r ∈ rows, ∀ v ∈ r, v ≤ maxval) (hx : x < w) (hy : y < h) :
    ((cfaAt cfa x y = CFA.BGGR ∨ cfaAt cfa x y = CFA.RGGB) →
      (((linearDebayerSeq maxval w cfa rows).getD y []).getD x []).getD
          (siteChannel (cfaAt cfa x y)) 0 = (rows.getD y []).getD x 0
      ∧ (((linearDebayerSeq maxval w cfa rows).getD y []).getD x []).getD 1 0
        = (linSample h rows y (x + 1) + linSample h rows (y + 1) x
            + linSample h rows (y + 1) (x + 2)
            + linSample h rows (y + 2) (x + 1)) / 4
      ∧ (((linearDebayerSeq maxval w cfa rows).getD y []).getD x []).getD
          (2 - siteChannel (cfaAt cfa x y)) 0
        = (linSample h rows y x + linSample h rows y (x + 2)
            + linSample h rows (y + 2) x + linSample h rows (y + 2) (x + 2)) / 4)
    ∧ ((cfaAt cfa x y = CFA.GBRG ∨ cfaAt cfa x y = CFA.GRBG) →
      (((linearDebayerSeq maxval w cfa rows).getD y []).getD x []).getD 1 0
        = (rows.getD y []).getD x 0
      ∧ (((linearDebayerSeq maxval w cfa rows).getD y []).getD x []).getD
          (if cfaAt cfa x y = CFA.GBRG then 2 else 0) 0
        = (linSample h rows (y + 1) x + linSample h rows (y + 1) (x + 2)) / 2
      ∧ (((linearDebayerSeq maxval w cfa rows).getD y []).getD x []).getD
          (if cfaAt cfa x y = CFA.GBRG then 0 else 2) 0
        = (linSample h rows y (x + 1) + linSample h rows (y + 2) (x + 1)) / 2) := by
  have hdata := linData_getD_le maxval w h rows hrowlen hw hlen hb
  have hraw := linSample_raw w h rows hlen hrowlen hx hy
  rw [linear_seq_eq_par maxval w h cfa rows hh hlen]
  simp only [linearDebayerPar]
  rw [getD_map_range _ _ hy, ← next_y_iterate y cfa]
  unfold cfaAt linSample
  constructor
  · intro hsite
    obtain ⟨h1, h2, h3⟩ := linearRow_pixel_c maxval (CFA.next_y^[y] cfa)
      ((linearData h rows).getD y []) ((linearData h rows).getD (y + 1) [])
      ((linearData h rows).getD (y + 2) []) w hx (hdata y) (hdata (y + 1))
      (hdata (y + 2)) hsite
    exact ⟨h1.trans hraw, h2, h3⟩
  · intro hsite
    obtain ⟨h1, h2, h3⟩ := linearRow_pixel_g maxval (CFA.next_y^[y] cfa)
      ((linearData h rows).getD y []) ((linearData h rows).getD (y + 1) [])
      ((linearData h rows).getD (y + 2) []) w hx (hdata y) (hdata (y + 1))
      (hdata (y + 2)) hsite
    exact ⟨h1.trans hraw, h2, h3⟩

theorem C2_witness :
    (2 ≤ 3 ∧ 2 ≤ 3 ∧ ([[10, 20, 30], [40, 50, 60], [70, 80, 90]] : List (List Nat)).length = 3 ∧ 1 < 3 ∧ 0 < 3) ∧
    (((cfaAt CFA.RGGB 1 0 = CFA.BGGR ∨ cfaAt CFA.RGGB 1 0 = CFA.RGGB) →
      (((linearDebayerSeq 255 3 CFA.RGGB [[10, 20, 30], [40, 50, 60], [70, 80, 90]]).getD 0 []).getD 1 []).getD
          (siteChannel (cfaAt CFA.RGGB 1 0)) 0
        = (([[10, 20, 30], [40, 50, 60], [70, 80, 90]] : List (List Nat)).getD 0 []).getD 1 0
      ∧ (((linearDebayerSeq 255 3 CFA.RGGB [[10, 20, 30], [40, 50, 60], [70, 80, 90]]).getD 0 []).getD 1 []).getD 1 0
        = (linSample 3 [[10, 20, 30], [40, 50, 60], [70, 80, 90]] 0 2
            + linSample 3 [[10, 20, 30], [40, 50, 60], [70, 80, 90]] 1 1
            + linSample 3 [[10, 20, 30], [40, 50, 60], [70, 80, 90]] 1 3
            + linSample 3 [[10, 20, 30], [40, 50, 60], [70, 80, 90]] 2 2) / 4
      ∧ (((linearDebayerSeq 255 3 CFA.RGGB [[10, 20, 30], [40, 50, 60], [70, 80, 90]]).getD 0 []).getD 1 []).getD
          (2 - siteChannel (cfaAt CFA.RGGB 1 0)) 0
        = (linSample 3 [[10, 20, 30], [40, 50, 60], [70, 80, 90]] 0 1
            + linSample 3 [[10, 20, 30], [40, 50, 60], [70, 80, 90]] 0 3
            + linSample 3 [[10, 20, 30], [40, 50, 60], [70, 80, 90]] 2 1
            + linSample 3 [[10, 20, 30], [40, 50, 60], [70, 80, 90]] 2 3) / 4)
    ∧ ((cfaAt CFA.RGGB 1 0 = CFA.GBRG ∨ cfaAt CFA.RGGB 1 0 = CFA.GRBG) →
      (((linearDebayerSeq 255 3 CFA.RGGB [[10, 20, 30], [40, 50, 60], [70, 80, 90]]).getD 0 []).getD 1 []).getD 1 0
        = (([[10, 20, 30], [40, 50, 60], [70, 80, 90]] : List (List Nat)).getD 0 []).getD 1 0
      ∧ (((linearDebayerSeq 255 3 CFA.RGGB [[10, 20, 30], [40, 50, 60], [70, 80, 90]]).getD 0 []).getD 1 []).getD
          (if cfaAt CFA.RGGB 1 0 = CFA.GBRG then 2 else 0) 0
        = (linSample 3 [[10, 20, 30], [40, 50, 60], [70, 80, 90]] 1 1
            + linSample 3 [[10, 20, 30], [40, 50, 60], [70, 80, 90]] 1 3) / 2
      ∧ (((linearDebayerSeq 255 3 CFA.RGGB [[10, 20, 30], [40, 50, 60], [70, 80, 90]]).getD 0 []).getD 1 []).getD
          (if cfaAt CFA.RGGB 1 0 = CFA.GBRG then 0 else 2) 0
        = (linSample 3 [[10, 20, 30], [40, 50, 60], [70, 80, 90]] 0 2
            + linSample 3 [[10, 20, 30], [40, 50, 60], [70, 80, 90]] 2 2) / 2)) :=
  ⟨⟨by decide, by decide, by decide, by decide, by decide⟩,
   C2_linear_interpolation 255 3 3 CFA.RGGB [[10, 20, 30], [40, 50, 60], [70, 80, 90]]
     1 0 (by decide) (by decide) (by decide) (by decide) (by decide)
     (by decide) (by decide)⟩

/-! ### Output range of the cubic pipeline (claim C1) -/

theorem mem_triple_le {a b c m v : Nat} (ha : a ≤ m) (hb : b ≤ m) (hc : c ≤ m)
    (hv : v ∈ [a, b, c]) : v ≤ m := by
  rcases (by simpa using hv : v = a ∨ v = b ∨ v = c) with rfl | rfl | rfl <;>
    assumption

theorem cubicKernelC_le (maxval : Nat) (cfa : CFA)
    (prv3 prv2 prv1 curr nxt1 nxt2 nxt3 : List Nat) (i : Nat)
    (hc : ∀ i, curr.getD i 0 ≤ maxval) :
    ∀ v ∈ cubicKernelC maxval cfa prv3 prv2 prv1 curr nxt1 nxt2 nxt3 i,
      v ≤ maxval := by
  intro v hv
  unfold cubicKernelC at hv
  have hclip : ∀ a : Nat, min a maxval % (maxval + 1) ≤ maxval :=
    fun a => le_trans (Nat.mod_le _ _) (min_le_right _ _)
  split_ifs at hv <;> exact mem_triple_le (by first | exact hclip _ | exact hc _)
    (by first | exact hclip _ | exact hc _) (by first | exact hclip _ | exact hc _) hv

theorem cubicKernelG_le (maxval : Nat) (cfa : CFA)
    (prv3 prv1 curr nxt1 nxt3 : List Nat) (i : Nat)
    (hc : ∀ i, curr.getD i 0 ≤ maxval) :
    ∀ v ∈ cubicKernelG maxval cfa prv3 prv1 curr nxt1 nxt3 i, v ≤ maxval := by
  intro v hv
  unfold cubicKernelG at hv
  have hclip : ∀ a : Nat, min a maxval % (maxval + 1) ≤ maxval :=
    fun a => le_trans (Nat.mod_le _ _) (min_le_right _ _)
  split_ifs at hv <;> exact mem_triple_le (by first | exact hclip _ | exact hc _)
    (by first | exact hclip _ | exact hc _) (by first | exact hclip _ | exact hc _) hv

theorem cubicKernelRow_le (maxval : Nat) (cfa : CFA)
    (p3 p2 p1 c n1 n2 n3 : List Nat) (w : Nat)
    (hc : ∀ i, c.getD i 0 ≤ maxval) :
    ∀ pix ∈ cubicKernelRow maxval cfa p3 p2 p1 c n1 n2 n3 w, ∀ v ∈ pix,
      v ≤ maxval := by
  intro pix hpix
  unfold cubicKernelRow at hpix
  simp only [List.mem_map, List.mem_range] at hpix
  obtain ⟨i, hi, rfl⟩ := hpix
  split_ifs <;>
    first
      | exact fun v hv => cubicKernelC_le maxval _ p3 p2 p1 c n1 n2 n3 i hc v hv
      | exact fun v hv => cubicKernelG_le maxval _ p3 p1 c n1 n3 i hc v hv

theorem cubicGo_le (maxval w : Nat) :
    ∀ (ups : List (List Nat)) (cfa : CFA) (p3 p2 p1 c n1 n2 n3 : List Nat),
      (∀ i, p2.getD i 0 ≤ maxval) → (∀ i, p1.getD i 0 ≤ maxval) →
      (∀ i, c.getD i 0 ≤ maxval) → (∀ i, n1.getD i 0 ≤ maxval) →
      (∀ i, n2.getD i 0 ≤ maxval) → (∀ i, n3.getD i 0 ≤ maxval) →
      (∀ u ∈ ups, ∀ i, u.getD i 0 ≤ maxval) →
      ∀ orow ∈ cubicGo maxval w cfa p3 p2 p1 c n1 n2 n3 ups, ∀ pix ∈ orow,
        ∀ v ∈ pix, v ≤ maxval := by
  intro ups
  induction ups with
  | nil =>
    intro cfa p3 p2 p1 c n1 n2 n3 hb2 hb1 hbc hbn1 hbn2 hbn3 hups orow horow
    rcases (by simpa [cubicGo] using horow :
        orow = cubicKernelRow maxval cfa p2 p1 c n1 n2 n3 n2 w
        ∨ orow = cubicKernelRow maxval cfa.next_y p1 c n1 n2 n3 n2 n1 w
        ∨ orow = cubicKernelRow maxval cfa.next_y.next_y c n1 n2 n3 n2 n1 c w)
      with rfl | rfl | rfl
    · exact cubicKernelRow_le maxval _ _ _ _ _ _ _ _ w hbn1
    · exact cubicKernelRow_le maxval _ _ _ _ _ _ _ _ w hbn2
    · exact cubicKernelRow_le maxval _ _ _ _ _ _ _ _ w hbn3
  | cons u rest ih =>
    intro cfa p3 p2 p1 c n1 n2 n3 hb2 hb1 hbc hbn1 hbn2 hbn3 hups orow horow
    rw [cubicGo] at horow
    rcases List.mem_cons.mp horow with rfl | htail
    · exact cubicKernelRow_le maxval _ _ _ _ _ _ _ _ w hbn1
    · exact ih cfa.next_y p2 p1 c n1 n2 n3 u hb1 hbc hbn1 hbn2 hbn3
        (hups u (List.mem_cons_self _ _)) (fun v hv => hups v (List.mem_cons_of_mem _ hv))
        orow htail

/-- C1: for every frame of width and height at least 4, every CFA phase and
both channel widths (`maxval` arbitrary), every channel of every pixel of
the cubic output lies within the channel's representable range; moreover
the four kernel accumulators — the separately accumulated positive and
negative tap sums whose saturating difference is divided by 256 (by 16 for
the axis terms at a green site) and clamped — stay below `2^32` for 16-bit
samples, so the source's `u32` arithmetic never wraps. -/
theorem C1_cubic_output_range (maxval w h : Nat) (cfa : CFA)
    (rows : List (List Nat)) (hw : 4 ≤ w) (hh : 4 ≤ h) (hlen : rows.length = h)
    (hb : ∀ r ∈ rows, ∀ v ∈ r, v ≤ maxval) :
    (∀ orow ∈ cubicDebayerSeq maxval w cfa rows, ∀ pix ∈ orow, ∀ v ∈ pix,
      v ≤ maxval) ∧
    (∀ (prv3 prv2 prv1 curr nxt1 nxt2 nxt3 : List Nat) (j : Nat),
      (∀ i, prv3.getD i 0 ≤ 65535) → (∀ i, prv2.getD i 0 ≤ 65535) →
      (∀ i, prv1.getD i 0 ≤ 65535) → (∀ i, curr.getD i 0 ≤ 65535) →
      (∀ i, nxt1.getD i 0 ≤ 65535) → (∀ i, nxt2.getD i 0 ≤ 65535) →
      (∀ i, nxt3.getD i 0 ≤ 65535) →
      cubicGPos prv3 prv1 curr nxt1 nxt3 j < 2 ^ 32
      ∧ cubicGNeg prv2 prv1 nxt1 nxt2 j < 2 ^ 32
      ∧ cubicDPos prv3 prv1 nxt1 nxt3 j < 2 ^ 32
      ∧ cubicDNeg prv3 prv1 nxt1 nxt3 j < 2 ^ 32) := by
  constructor
  · have hPlen : (rows.map (mirrorLine 3)).length = h := by simp [hlen]
    have hallP : ∀ l ∈ rows.map (mirrorLine 3), ∀ i, l.getD i 0 ≤ maxval := by
      intro l hl
      rw [List.mem_map] at hl
      obtain ⟨r, hr, rfl⟩ := hl
      exact mirrorLine_getD_le (hb r hr) 3
    obtain ⟨r0, r1, r2, r3, rest, hP⟩ :
        ∃ r0 r1 r2 r3 rest, rows.map (mirrorLine 3) = r0 :: r1 :: r2 :: r3 :: rest := by
      cases hM : rows.map (mirrorLine 3) with
      | nil => rw [hM] at hPlen; simp at hPlen; omega
      | cons a t =>
        cases t with
        | nil => rw [hM] at hPlen; simp at hPlen; omega
        | cons b t2 =>
          cases t2 with
          | nil => rw [hM] at hPlen; simp at hPlen; omega
          | cons c t3 =>
            cases t3 with
            | nil => rw [hM] at hPlen; simp at hPlen; omega
            | cons d t4 => exact ⟨a, b, c, d, t4, rfl⟩
    have hmem : ∀ l, l ∈ ([r0, r1, r2, r3] : List (List Nat)) ∨ l ∈ rest →
        ∀ i, l.getD i 0 ≤ maxval := by
      intro l hl
      refine hallP l ?_
      rw [hP]
      rcases hl with hl | hl
      · rcases (by simpa using hl : l = r0 ∨ l = r1 ∨ l = r2 ∨ l = r3)
          with rfl | rfl | rfl | rfl <;> simp
      · simp [hl]
    have hseq : cubicDebayerSeq maxval w cfa rows
        = cubicKernelRow maxval cfa r3 r2 r1 r0 r1 r2 r3 w
          :: cubicGo maxval w cfa.next_y r3 r2 r1 r0 r1 r2 r3 rest := by
      unfold cubicDebayerSeq
      rw [hP]
    rw [hseq]
    intro orow horow
    rcases List.mem_cons.mp horow with rfl | htail
    · exact cubicKernelRow_le maxval _ _ _ _ _ _ _ _ w
        (hmem r0 (Or.inl (by simp)))
    · exact cubicGo_le maxval w rest cfa.next_y r3 r2 r1 r0 r1 r2 r3
        (hmem r2 (Or.inl (by simp))) (hmem r1 (Or.inl (by simp)))
        (hmem r0 (Or.inl (by simp))) (hmem r1 (Or.inl (by simp)))
        (hmem r2 (Or.inl (by simp))) (hmem r3 (Or.inl (by simp)))
        (fun u hu => hmem u (Or.inr hu)) orow htail
  · intro prv3 prv2 prv1 curr nxt1 nxt2 nxt3 j hb3 hb2 hb1 hbc hn1 hn2 hn3
    unfold cubicGPos cubicGNeg cubicDPos cubicDNeg
    have g1 := hb1 j
    have g2 := hbc (j - 1)
    have g3 := hbc (j + 1)
    have g4 := hn1 j
    have g5 := hb3 j
    have g6 := hbc (j - 3)
    have g7 := hbc (j + 3)
    have g8 := hn3 j
    have n1 := hb2 (j - 1)
    have n2 := hb2 (j + 1)
    have n3 := hb1 (j - 2)
    have n4 := hb1 (j + 2)
    have n5 := hn1 (j - 2)
    have n6 := hn1 (j + 2)
    have n7 := hn2 (j - 1)
    have n8 := hn2 (j + 1)
    have d1 := hb1 (j - 1)
    have d2 := hb1 (j + 1)
    have d3 := hn1 (j - 1)
    have d4 := hn1 (j + 1)
    have d5 := hb3 (j - 3)
    have d6 := hb3 (j + 3)
    have d7 := hn3 (j - 3)
    have d8 := hn3 (j + 3)
    have e1 := hb3 (j - 1)
    have e2 := hb3 (j + 1)
    have e3 := hb1 (j - 3)
    have e4 := hb1 (j + 3)
    have e5 := hn1 (j - 3)
    have e6 := hn1 (j + 3)
    have e7 := hn3 (j - 1)
    have e8 := hn3 (j + 1)
    refine ⟨by omega, by omega, by omega, by omega⟩

theorem C1_witness :
    (4 ≤ 4 ∧ 4 ≤ 4 ∧ (chunkRows 4 4 (List.range 16)).length = 4 ∧
      ∀ r ∈ chunkRows 4 4 (List.range 16), ∀ v ∈ r, v ≤ 255) ∧
    ((∀ orow ∈ cubicDebayerSeq 255 4 CFA.BGGR (chunkRows 4 4 (List.range 16)),
      ∀ pix ∈ orow, ∀ v ∈ pix, v ≤ 255) ∧
    (∀ (prv3 prv2 prv1 curr nxt1 nxt2 nxt3 : List Nat) (j : Nat),
      (∀ i, prv3.getD i 0 ≤ 65535) → (∀ i, prv2.getD i 0 ≤ 65535) →
      (∀ i, prv1.getD i 0 ≤ 65535) → (∀ i, curr.getD i 0 ≤ 65535) →
      (∀ i, nxt1.getD i 0 ≤ 65535) → (∀ i, nxt2.getD i 0 ≤ 65535) →
      (∀ i, nxt3.getD i 0 ≤ 65535) →
      cubicGPos prv3 prv1 curr nxt1 nxt3 j < 2 ^ 32
      ∧ cubicGNeg prv2 prv1 nxt1 nxt2 j < 2 ^ 32
      ∧ cubicDPos prv3 prv1 nxt1 nxt3 j < 2 ^ 32
      ∧ cubicDNeg prv3 prv1 nxt1 nxt3 j < 2 ^ 32)) :=
  ⟨⟨by decide, by decide, by decide, by decide⟩,
   C1_cubic_output_range 255 4 4 CFA.BGGR (chunkRows 4 4 (List.range 16))
     (by decide) (by decide) (by decide) (by decide)⟩

end LibBayer
